import Mathlib

/-!
Verification development for the CQL result deserializer
(`src/scylla/src/frame/response/result.rs`).

The byte-level model works on `List Nat` cursors (one entry per byte).
Rust `String` values are modelled by their UTF-8 byte sequences, so
string comparison and `BTreeMap` key ordering are byte-lexicographic,
exactly as in Rust.  The primitive codec (`frame/types`) is not part of
the sources; its operations are modelled from the spec (§4.1) and are
marked as such.  Recursion over wire-supplied structure uses a fuel
parameter so that every definition is structurally recursive and
kernel-computable; the fuel supplied by the public entry points is
always sufficient (it bounds the nesting depth of the column type /
input length), and fuel-irrelevance lemmas are proved where needed.
-/

namespace Scylla

/-- The decoder's error type (declared in `frame_errors`, outside the sources;
variants per spec §7). -/
inductive ParseError : Type where
  | ShortRead : ParseError
  | BadData : String → ParseError
  | TypeNotImplemented : Nat → ParseError
deriving DecidableEq, Repr

/-- Outcome of a decode path that can also abort: a failed Rust `assert!` or an
out-of-range slice aborts the process instead of returning, which the model
records as `abortedPanic`. -/
inductive PResult (α : Type) : Type where
  | ok : α → PResult α
  | err : ParseError → PResult α
  | abortedPanic : PResult α

/-- A byte cursor: the not-yet-consumed bytes, one `Nat` per byte. -/
abbrev Bytes := List Nat

/-- A Rust `String`, modelled as its UTF-8 byte sequence. -/
abbrev RStr := Bytes

/-- Two's-complement reinterpretation of a 32-bit unsigned value as `i32`. -/
def toSigned32 (n : Nat) : Int := if n < 2 ^ 31 then (n : Int) else (n : Int) - 2 ^ 32

/-- Two's-complement reinterpretation of a 16-bit unsigned value as `i16`. -/
def toSigned16 (n : Nat) : Int := if n < 2 ^ 15 then (n : Int) else (n : Int) - 2 ^ 16

/-- Two's-complement reinterpretation of an 8-bit unsigned value as `i8`. -/
def toSigned8 (n : Nat) : Int := if n < 2 ^ 7 then (n : Int) else (n : Int) - 2 ^ 8

/-- Two's-complement reinterpretation of a 64-bit unsigned value as `i64`. -/
def toSigned64 (n : Nat) : Int := if n < 2 ^ 63 then (n : Int) else (n : Int) - 2 ^ 64

/-- Big-endian value of a byte sequence. -/
def beVal (bs : Bytes) : Nat := bs.foldl (fun acc b => acc * 256 + b) 0

/-- Modelled from the spec: bounds-checked read of `n` raw bytes from the
cursor; a read that would exceed the cursor fails with `ShortRead` (§4.1).
The primitive codec module `frame/types` is not among the sources. -/
def takeN (n : Nat) (buf : Bytes) : Except ParseError (Bytes × Bytes) :=
  if n ≤ buf.length then .ok (buf.take n, buf.drop n) else .error .ShortRead

/-- Modelled from the spec: `read_short → u16`, big-endian (§4.1);
`frame/types` is not among the sources. -/
def read_short (buf : Bytes) : Except ParseError (Nat × Bytes) := do
  let (bs, rest) ← takeN 2 buf
  .ok (beVal bs, rest)

/-- Modelled from the spec: `read_int → i32`, big-endian (§4.1). -/
def read_int (buf : Bytes) : Except ParseError (Int × Bytes) := do
  let (bs, rest) ← takeN 4 buf
  .ok (toSigned32 (beVal bs), rest)

/-- Modelled from the spec: `read_int_length → u32`, same bits as `read_int`,
required non-negative (§4.1; §7 files a negative count under `BadData`). -/
def read_int_length (buf : Bytes) : Except ParseError (Nat × Bytes) := do
  let (bs, rest) ← takeN 4 buf
  if beVal bs % 2 ^ 32 < 2 ^ 31 then .ok (beVal bs % 2 ^ 32, rest)
  else .error (.BadData "read_int_length: negative length")

/-- Rust `usize::try_from` on an `i32` value: fails when negative (§7:
negative count where non-negative required). -/
def intToUsize (i : Int) : Except ParseError Nat :=
  if 0 ≤ i then .ok i.toNat
  else .error (.BadData "out of range integral type conversion attempted")

/-- Is `b` a UTF-8 continuation byte? -/
def utf8Cont (b : Nat) : Bool := 0x80 ≤ b && b ≤ 0xBF

/-- UTF-8 validity (RFC 3629: shortest forms only, surrogates excluded),
the check performed by Rust `str::from_utf8`. -/
def utf8Valid : Bytes → Bool
  | [] => true
  | b :: rest =>
    if b ≤ 0x7F then utf8Valid rest
    else if 0xC2 ≤ b && b ≤ 0xDF then
      match rest with
      | b1 :: r => utf8Cont b1 && utf8Valid r
      | [] => false
    else if b == 0xE0 then
      match rest with
      | b1 :: b2 :: r => (0xA0 ≤ b1 && b1 ≤ 0xBF) && utf8Cont b2 && utf8Valid r
      | _ => false
    else if (0xE1 ≤ b && b ≤ 0xEC) || b == 0xEE || b == 0xEF then
      match rest with
      | b1 :: b2 :: r => utf8Cont b1 && utf8Cont b2 && utf8Valid r
      | _ => false
    else if b == 0xED then
      match rest with
      | b1 :: b2 :: r => (0x80 ≤ b1 && b1 ≤ 0x9F) && utf8Cont b2 && utf8Valid r
      | _ => false
    else if b == 0xF0 then
      match rest with
      | b1 :: b2 :: b3 :: r =>
        (0x90 ≤ b1 && b1 ≤ 0xBF) && utf8Cont b2 && utf8Cont b3 && utf8Valid r
      | _ => false
    else if 0xF1 ≤ b && b ≤ 0xF3 then
      match rest with
      | b1 :: b2 :: b3 :: r => utf8Cont b1 && utf8Cont b2 && utf8Cont b3 && utf8Valid r
      | _ => false
    else if b == 0xF4 then
      match rest with
      | b1 :: b2 :: b3 :: r =>
        (0x80 ≤ b1 && b1 ≤ 0x8F) && utf8Cont b2 && utf8Cont b3 && utf8Valid r
      | _ => false
    else false

/-- Modelled from the spec: `read_string` reads a `short` length and that many
UTF-8 bytes, failing on invalid UTF-8 (§4.1); §7 files bad UTF-8 under
`BadData`. -/
def read_string (buf : Bytes) : Except ParseError (RStr × Bytes) := do
  let (n, buf1) ← read_short buf
  let (s, rest) ← takeN n buf1
  if utf8Valid s then .ok (s, rest) else .error (.BadData "invalid utf-8 sequence")

/-- Modelled from the spec: `read_bytes` reads an `int` length required to be
non-negative, then that many raw bytes (§4.1). -/
def read_bytes (buf : Bytes) : Except ParseError (Bytes × Bytes) := do
  let (i, buf1) ← read_int buf
  let n ← intToUsize i
  takeN n buf1

/-- Modelled from the spec: `read_bytes_opt` reads an `int` length; a negative
length means `None`, otherwise that many raw bytes (§4.1). -/
def read_bytes_opt (buf : Bytes) : Except ParseError (Option Bytes × Bytes) := do
  let (i, buf1) ← read_int buf
  if i < 0 then .ok (none, buf1)
  else do
    let (bs, rest) ← takeN i.toNat buf1
    .ok (some bs, rest)

/-- `ColumnType` from `result.rs` (strings as UTF-8 byte sequences). In
`UserDefinedType` the fields are `type_name`, `keyspace`, `field_types`, in
source order. -/
inductive ColumnType : Type where
  | Ascii : ColumnType
  | Int : ColumnType
  | BigInt : ColumnType
  | Boolean : ColumnType
  | Counter : ColumnType
  | SmallInt : ColumnType
  | TinyInt : ColumnType
  | Date : ColumnType
  | Time : ColumnType
  | Timestamp : ColumnType
  | Text : ColumnType
  | Inet : ColumnType
  | List : ColumnType → ColumnType
  | Map : ColumnType → ColumnType → ColumnType
  | Set : ColumnType → ColumnType
  | UserDefinedType : RStr → RStr → List (RStr × ColumnType) → ColumnType
  | Tuple : List ColumnType → ColumnType

/-- `TableSpec` from `result.rs`. -/
structure TableSpec where
  ks_name : RStr
  table_name : RStr
deriving DecidableEq

/-- `ColumnSpec` from `result.rs`. -/
structure ColumnSpec where
  table_spec : TableSpec
  name : RStr
  typ : ColumnType

/-- `deser_table_spec` from `result.rs`. -/
def deser_table_spec (buf : Bytes) : Except ParseError (TableSpec × Bytes) := do
  let (ks_name, b1) ← read_string buf
  let (table_name, b2) ← read_string b1
  .ok (⟨ks_name, table_name⟩, b2)

/-- The loop of `deser_type`'s `0x0030` arm: read `n` `(field name, type)`
pairs, with `dt` standing for the recursive `deser_type` call. -/
def deser_udt_field_typesF (dt : Bytes → Except ParseError (ColumnType × Bytes)) :
    Nat → Bytes → Except ParseError (List (RStr × ColumnType) × Bytes)
  | 0, buf => .ok ([], buf)
  | n + 1, buf => do
    let (field_name, b1) ← read_string buf
    let (field_type, b2) ← dt b1
    let (rest, b3) ← deser_udt_field_typesF dt n b2
    .ok ((field_name, field_type) :: rest, b3)

/-- The loop of `deser_type`'s `0x0031` arm: read `n` types, with `dt`
standing for the recursive `deser_type` call. -/
def deser_type_listF (dt : Bytes → Except ParseError (ColumnType × Bytes)) :
    Nat → Bytes → Except ParseError (List ColumnType × Bytes)
  | 0, buf => .ok ([], buf)
  | n + 1, buf => do
    let (t, b1) ← dt buf
    let (rest, b2) ← deser_type_listF dt n b1
    .ok (t :: rest, b2)

/-- `deser_type` from `result.rs`, with a fuel parameter making the recursion
structural.  Each recursive call of the source consumes at least the two tag
bytes first, so any fuel exceeding the cursor length is sufficient and the
fuel-exhaustion branch is unreachable from `deser_type`. -/
def deser_typeF : Nat → Bytes → Except ParseError (ColumnType × Bytes)
  | 0, _ => .error (.BadData "type recursion limit")
  | fuel + 1, buf => do
    let (id, buf1) ← read_short buf
    if id = 0x0001 then .ok (.Ascii, buf1)
    else if id = 0x0002 then .ok (.BigInt, buf1)
    else if id = 0x0004 then .ok (.Boolean, buf1)
    else if id = 0x0005 then .ok (.Counter, buf1)
    else if id = 0x0009 then .ok (.Int, buf1)
    else if id = 0x000B then .ok (.Timestamp, buf1)
    else if id = 0x000D then .ok (.Text, buf1)
    else if id = 0x0010 then .ok (.Inet, buf1)
    else if id = 0x0011 then .ok (.Date, buf1)
    else if id = 0x0012 then .ok (.Time, buf1)
    else if id = 0x0013 then .ok (.SmallInt, buf1)
    else if id = 0x0014 then .ok (.TinyInt, buf1)
    else if id = 0x0020 then do
      let (t, b2) ← deser_typeF fuel buf1
      .ok (.List t, b2)
    else if id = 0x0021 then do
      let (k, b2) ← deser_typeF fuel buf1
      let (v, b3) ← deser_typeF fuel b2
      .ok (.Map k v, b3)
    else if id = 0x0022 then do
      let (t, b2) ← deser_typeF fuel buf1
      .ok (.Set t, b2)
    else if id = 0x0030 then do
      let (keyspace_name, b2) ← read_string buf1
      let (type_name, b3) ← read_string b2
      let (fields_size, b4) ← read_short b3
      let (field_types, b5) ←
        deser_udt_field_typesF (fun b => deser_typeF fuel b) fields_size b4
      .ok (.UserDefinedType type_name keyspace_name field_types, b5)
    else if id = 0x0031 then do
      let (len, b2) ← read_short buf1
      let (types, b3) ← deser_type_listF (fun b => deser_typeF fuel b) len b2
      .ok (.Tuple types, b3)
    else .error (.TypeNotImplemented id)

/-- `deser_type` from `result.rs` (fuel instantiated; see `deser_typeF`). -/
def deser_type (buf : Bytes) : Except ParseError (ColumnType × Bytes) :=
  deser_typeF (buf.length + 1) buf

/-- `CQLValue` from `result.rs`.  Strings are UTF-8 byte sequences; the
`chrono` payloads of `Date`/`Time`/`Timestamp` are represented by the wire
integers they are built from (days / nanoseconds / milliseconds), `Inet` by
its 4- or 16-byte address.  The `UserDefinedType` field map models
`BTreeMap<String, Option<CQLValue>>` as a list sorted by byte-lexicographic
key order (Rust's `Ord` on `String`); its fields are `keyspace`,
`type_name`, `fields`, in source order. -/
inductive CQLValue : Type where
  | Ascii : RStr → CQLValue
  | Int : Int → CQLValue
  | BigInt : Int → CQLValue
  | Boolean : Bool → CQLValue
  | Counter : Nat → CQLValue
  | SmallInt : Int → CQLValue
  | TinyInt : Int → CQLValue
  | Date : Int → CQLValue
  | Time : Int → CQLValue
  | Timestamp : Int → CQLValue
  | Text : RStr → CQLValue
  | Inet : Bytes → CQLValue
  | List : List CQLValue → CQLValue
  | Map : List (CQLValue × CQLValue) → CQLValue
  | Set : List CQLValue → CQLValue
  | UserDefinedType : RStr → RStr → List (RStr × Option CQLValue) → CQLValue
  | Tuple : List CQLValue → CQLValue

/-- `ResultMetadata` from `result.rs`. -/
structure ResultMetadata where
  col_count : Nat
  paging_state : Option Bytes
  col_specs : List ColumnSpec

/-- `PreparedMetadata` from `result.rs`. -/
structure PreparedMetadata where
  col_count : Nat
  pk_indexes : List Nat
  col_specs : List ColumnSpec

/-- `Row` from `result.rs`. -/
structure Row where
  columns : List (Option CQLValue)

/-- `Rows` from `result.rs`. -/
structure Rows where
  metadata : ResultMetadata
  rows_count : Nat
  rows : List Row

/-- `Prepared` from `result.rs`. -/
structure Prepared where
  id : Bytes
  prepared_metadata : PreparedMetadata
  result_metadata : ResultMetadata

/-- `SetKeyspace` from `result.rs` (an empty placeholder in the source). -/
structure SetKeyspace where

/-- `SchemaChange` from `result.rs` (an empty placeholder in the source). -/
structure SchemaChange where

/-- The loop of `deser_col_specs` from `result.rs`, recursing on the
remaining column count (the source's `for _ in 0..col_count`). -/
def deser_col_specs (global_table_spec : Option TableSpec) :
    Nat → Bytes → Except ParseError (List ColumnSpec × Bytes)
  | 0, buf => .ok ([], buf)
  | n + 1, buf => do
    let (table_spec, b1) ←
      match global_table_spec with
      | some spec => pure (spec, buf)
      | none => deser_table_spec buf
    let (name, b2) ← read_string b1
    let (typ, b3) ← deser_type b2
    let (rest, b4) ← deser_col_specs global_table_spec n b3
    .ok (⟨table_spec, name, typ⟩ :: rest, b4)

/-- `deser_result_metadata` from `result.rs`.  The source reads `flags` as an
`i32` and tests `flags & 0x0001` etc.; bit-testing the two's-complement value
equals bit-testing the raw 32-bit word, so the model tests the raw word. -/
def deser_result_metadata (buf : Bytes) : Except ParseError (ResultMetadata × Bytes) := do
  let (flagBytes, b1) ← takeN 4 buf
  let flags := beVal flagBytes
  let global_tables_spec := flags.testBit 0
  let has_more_pages := flags.testBit 1
  let no_metadata := flags.testBit 2
  let (ccI, b2) ← read_int b1
  let col_count ← intToUsize ccI
  let (paging_state, b3) ←
    if has_more_pages then do
      let (ps, b3) ← read_bytes b2
      pure (some ps, b3)
    else pure ((none : Option Bytes), b2)
  if no_metadata then
    .ok (⟨col_count, paging_state, []⟩, b3)
  else do
    let (global_table_spec, b4) ←
      if global_tables_spec then do
        let (ts, b4) ← deser_table_spec b3
        pure (some ts, b4)
      else pure ((none : Option TableSpec), b3)
    let (col_specs, b5) ← deser_col_specs global_table_spec col_count b4
    .ok (⟨col_count, paging_state, col_specs⟩, b5)

/-- The pk-index loop of `deser_prepared_metadata` from `result.rs`. -/
def deser_pk_indexes : Nat → Bytes → Except ParseError (List Nat × Bytes)
  | 0, buf => .ok ([], buf)
  | n + 1, buf => do
    let (s, b1) ← read_short buf
    let (rest, b2) ← deser_pk_indexes n b1
    .ok (s :: rest, b2)

/-- `deser_prepared_metadata` from `result.rs` (flags read as for
`deser_result_metadata`). -/
def deser_prepared_metadata (buf : Bytes) :
    Except ParseError (PreparedMetadata × Bytes) := do
  let (flagBytes, b1) ← takeN 4 buf
  let flags := beVal flagBytes
  let global_tables_spec := flags.testBit 0
  let (col_count, b2) ← read_int_length b1
  let (pkI, b3) ← read_int b2
  let pk_count ← intToUsize pkI
  let (pk_indexes, b4) ← deser_pk_indexes pk_count b3
  let (global_table_spec, b5) ←
    if global_tables_spec then do
      let (ts, b5) ← deser_table_spec b4
      pure (some ts, b5)
    else pure ((none : Option TableSpec), b4)
  let (col_specs, b6) ← deser_col_specs global_table_spec col_count b5
  .ok (⟨col_count, pk_indexes, col_specs⟩, b6)

/-- Byte-lexicographic strict order on byte strings: Rust's `Ord` on
`String`, which orders `BTreeMap<String, _>`. -/
def bytesLt : Bytes → Bytes → Bool
  | [], [] => false
  | [], _ :: _ => true
  | _ :: _, [] => false
  | a :: as, b :: bs => if a < b then true else if a = b then bytesLt as bs else false

/-- Model of `BTreeMap::insert` on the sorted association list: keeps the
list sorted by `bytesLt` and replaces the value at an existing key. -/
def btreeInsert (k : RStr) (v : Option CQLValue) :
    List (RStr × Option CQLValue) → List (RStr × Option CQLValue)
  | [] => [(k, v)]
  | (k', v') :: rest =>
    if bytesLt k k' then (k, v) :: (k', v') :: rest
    else if k = k' then (k, v) :: rest
    else (k', v') :: btreeInsert k v rest

/-- The `List`/`Set` element loop of `deser_cql_value`: read `n` `[bytes]`
payloads and decode each with `dec` (the recursive call at the element type);
the element's own leftover cursor is dropped, as in the source. -/
def loopElemsF (dec : Bytes → Except ParseError (CQLValue × Bytes)) :
    Nat → Bytes → Except ParseError (List CQLValue × Bytes)
  | 0, buf => .ok ([], buf)
  | n + 1, buf => do
    let (b, buf1) ← read_bytes buf
    let (v, _) ← dec b
    let (vs, buf2) ← loopElemsF dec n buf1
    .ok (v :: vs, buf2)

/-- The `Map` entry loop of `deser_cql_value`: read `n` key/value `[bytes]`
payload pairs, key first. -/
def loopPairsF (decK decV : Bytes → Except ParseError (CQLValue × Bytes)) :
    Nat → Bytes → Except ParseError (List (CQLValue × CQLValue) × Bytes)
  | 0, buf => .ok ([], buf)
  | n + 1, buf => do
    let (bk, buf1) ← read_bytes buf
    let (k, _) ← decK bk
    let (bv, buf2) ← read_bytes buf1
    let (v, _) ← decV bv
    let (ps, buf3) ← loopPairsF decK decV n buf2
    .ok ((k, v) :: ps, buf3)

/-- The `UserDefinedType` field loop of `deser_cql_value`: for each declared
field, read a `[bytes]` option, decode a present payload at the field's
type, and `BTreeMap::insert` the result under the field name. -/
def loopUdtFieldsF (dec : ColumnType → Bytes → Except ParseError (CQLValue × Bytes)) :
    List (RStr × ColumnType) → List (RStr × Option CQLValue) → Bytes →
    Except ParseError (List (RStr × Option CQLValue) × Bytes)
  | [], fields, buf => .ok (fields, buf)
  | (field_name, field_type) :: fts, fields, buf => do
    let (ob, buf1) ← read_bytes_opt buf
    let field_value ←
      match ob with
      | none => pure (none : Option CQLValue)
      | some fb => do
        let (v, _) ← dec field_type fb
        pure (some v)
    loopUdtFieldsF dec fts (btreeInsert field_name field_value fields) buf1

/-- The `Tuple` element loop of `deser_cql_value`: one `[bytes]` payload per
declared element type, decoded positionally. -/
def loopTupleF (dec : ColumnType → Bytes → Except ParseError (CQLValue × Bytes)) :
    List ColumnType → Bytes → Except ParseError (List CQLValue × Bytes)
  | [], buf => .ok ([], buf)
  | t :: ts, buf => do
    let (b, buf1) ← read_bytes buf
    let (v, _) ← dec t b
    let (vs, buf2) ← loopTupleF dec ts buf1
    .ok (v :: vs, buf2)

/-- `deser_cql_value` from `result.rs`, with a fuel parameter making the
recursion structural.  Fuel is spent only when descending into a nested
element payload, and every element payload comes from `read_bytes` /
`read_bytes_opt` on the enclosing cursor, so it is at least 4 bytes (its
length prefix) shorter; hence any fuel exceeding the cursor length is
sufficient, and results agree for all sufficient fuels
(`deser_cql_valueF_irrel`).  Scalar cases reproduce the source's
exact-length checks and error messages; cursors advance exactly as the
source's reads do. -/
def deser_cql_valueF : Nat → ColumnType → Bytes → Except ParseError (CQLValue × Bytes)
  | 0, _, _ => .error (.BadData "value recursion limit")
  | fuel + 1, typ, buf =>
    match typ with
    | .Ascii =>
      if buf.all (fun b => b < 0x80) then
        if utf8Valid buf then .ok (.Ascii buf, buf)
        else .error (.BadData "invalid utf-8 sequence")
      else .error (.BadData "String is not ascii!")
    | .Int =>
      if buf.length = 4 then
        .ok (.Int (toSigned32 (beVal (buf.take 4))), buf.drop 4)
      else .error (.BadData ("Buffer length should be 4 not " ++ toString buf.length))
    | .BigInt =>
      if buf.length = 8 then
        .ok (.BigInt (toSigned64 (beVal (buf.take 8))), buf.drop 8)
      else .error (.BadData ("Buffer length should be 8 not " ++ toString buf.length))
    | .Boolean =>
      if buf.length = 1 then
        .ok (.Boolean (decide (0 < toSigned8 (beVal (buf.take 1)))), buf.drop 1)
      else .error (.BadData ("Buffer length should be 1 not " ++ toString buf.length))
    | .Counter =>
      if buf.length = 8 then
        .ok (.Counter (beVal (buf.take 8)), buf.drop 8)
      else .error (.BadData ("Buffer length should be 8 not " ++ toString buf.length))
    | .SmallInt =>
      if buf.length = 2 then
        .ok (.SmallInt (toSigned16 (beVal (buf.take 2))), buf.drop 2)
      else .error (.BadData ("Buffer length should be 2 not " ++ toString buf.length))
    | .TinyInt =>
      if buf.length = 1 then
        .ok (.TinyInt (toSigned8 (beVal (buf.take 1))), buf.drop 1)
      else .error (.BadData ("Buffer length should be 1 not " ++ toString buf.length))
    | .Text =>
      if utf8Valid buf then .ok (.Text buf, buf)
      else .error (.BadData "invalid utf-8 sequence")
    | .Inet =>
      if buf.length = 4 then .ok (.Inet (buf.take 4), buf.drop 4)
      else if buf.length = 16 then .ok (.Inet (buf.take 16), buf.drop 16)
      else .error (.BadData ("Invalid inet bytes length: " ++ toString buf.length))
    | .Date =>
      if buf.length = 4 then
        .ok (.Date (toSigned32 (beVal (buf.take 4))), buf.drop 4)
      else .error (.BadData ("Buffer length should be 4 not " ++ toString buf.length))
    | .Time =>
      if buf.length = 8 then
        .ok (.Time (toSigned64 (beVal (buf.take 8))), buf.drop 8)
      else .error (.BadData ("Buffer length should be 8 not " ++ toString buf.length))
    | .Timestamp =>
      if buf.length = 8 then
        .ok (.Timestamp (toSigned64 (beVal (buf.take 8))), buf.drop 8)
      else .error (.BadData ("Buffer length should be 8 not " ++ toString buf.length))
    | .List t => do
      let (i, buf1) ← read_int buf
      let len ← intToUsize i
      let (vs, buf2) ← loopElemsF (fun b => deser_cql_valueF fuel t b) len buf1
      .ok (.List vs, buf2)
    | .Map kt vt => do
      let (i, buf1) ← read_int buf
      let len ← intToUsize i
      let (ps, buf2) ←
        loopPairsF (fun b => deser_cql_valueF fuel kt b)
          (fun b => deser_cql_valueF fuel vt b) len buf1
      .ok (.Map ps, buf2)
    | .Set t => do
      let (i, buf1) ← read_int buf
      let len ← intToUsize i
      let (vs, buf2) ← loopElemsF (fun b => deser_cql_valueF fuel t b) len buf1
      .ok (.Set vs, buf2)
    | .UserDefinedType type_name keyspace field_types => do
      let (fields, buf1) ←
        loopUdtFieldsF (fun t b => deser_cql_valueF fuel t b) field_types [] buf
      .ok (.UserDefinedType keyspace type_name fields, buf1)
    | .Tuple ts => do
      let (vs, buf1) ← loopTupleF (fun t b => deser_cql_valueF fuel t b) ts buf
      .ok (.Tuple vs, buf1)

/-- `deser_cql_value` from `result.rs` (fuel instantiated with
`buf.length + 1`, which exceeds every chain of element descents; see
`deser_cql_valueF`). -/
def deser_cql_value (typ : ColumnType) (buf : Bytes) :
    Except ParseError (CQLValue × Bytes) :=
  deser_cql_valueF (buf.length + 1) typ buf

/-- The cell loop of one row in `deser_rows`: the source iterates `i` over
`0..metadata.col_count` reading `col_specs[i]`; after the source's assert,
`col_count = col_specs.len()`, so iterating the spec list is the same loop. -/
def deser_row_cells : List ColumnSpec → Bytes → Except ParseError (List (Option CQLValue) × Bytes)
  | [], buf => .ok ([], buf)
  | spec :: specs, buf => do
    let (ob, buf1) ← read_bytes_opt buf
    let v ←
      match ob with
      | some b => do
        let (v, _) ← deser_cql_value spec.typ b
        pure (some v)
      | none => pure (none : Option CQLValue)
    let (cols, buf2) ← deser_row_cells specs buf1
    .ok (v :: cols, buf2)

/-- The row loop of `deser_rows` (the source's `for _ in 0..rows_count`). -/
def deser_rows_loop : Nat → List ColumnSpec → Bytes → Except ParseError (List Row × Bytes)
  | 0, _, buf => .ok ([], buf)
  | n + 1, specs, buf => do
    let (columns, buf1) ← deser_row_cells specs buf
    let (rows, buf2) ← deser_rows_loop n specs buf1
    .ok (⟨columns⟩ :: rows, buf2)

/-- `deser_rows` from `result.rs`.  The source's
`assert!(metadata.col_count == metadata.col_specs.len())` aborts when false,
modelled by `PResult.abortedPanic`. -/
def deser_rows (buf : Bytes) : PResult (Rows × Bytes) :=
  match deser_result_metadata buf with
  | .error e => .err e
  | .ok (metadata, buf1) =>
    if metadata.col_count = metadata.col_specs.length then
      match read_int buf1 with
      | .error e => .err e
      | .ok (rcI, buf2) =>
        match intToUsize rcI with
        | .error e => .err e
        | .ok rows_count =>
          match deser_rows_loop rows_count metadata.col_specs buf2 with
          | .error e => .err e
          | .ok (rows, buf3) => .ok (⟨metadata, rows_count, rows⟩, buf3)
    else .abortedPanic

/-- `deser_set_keyspace` from `result.rs` (consumes nothing). -/
def deser_set_keyspace (buf : Bytes) : Except ParseError (SetKeyspace × Bytes) :=
  .ok (⟨⟩, buf)

/-- `deser_prepared` from `result.rs`.  The source slices `buf[0..id_len]`
without a bounds check; a too-short buffer makes that slice abort, modelled
by `PResult.abortedPanic`. -/
def deser_prepared (buf : Bytes) : PResult (Prepared × Bytes) :=
  match read_short buf with
  | .error e => .err e
  | .ok (id_len, buf1) =>
    if id_len ≤ buf1.length then
      match deser_prepared_metadata (buf1.drop id_len) with
      | .error e => .err e
      | .ok (prepared_metadata, buf2) =>
        match deser_result_metadata buf2 with
        | .error e => .err e
        | .ok (result_metadata, buf3) =>
          .ok (⟨buf1.take id_len, prepared_metadata, result_metadata⟩, buf3)
    else .abortedPanic

/-- `deser_schema_change` from `result.rs` (consumes nothing). -/
def deser_schema_change (buf : Bytes) : Except ParseError (SchemaChange × Bytes) :=
  .ok (⟨⟩, buf)

/-- The `Result` enum from `result.rs`. -/
inductive Result : Type where
  | Void : Result
  | Rows : Scylla.Rows → Result
  | SetKeyspace : Scylla.SetKeyspace → Result
  | Prepared : Scylla.Prepared → Result
  | SchemaChange : Scylla.SchemaChange → Result

/-- `deserialize` from `result.rs`: dispatch on the `int` result kind. -/
def deserialize (buf : Bytes) : PResult (Result × Bytes) :=
  match read_int buf with
  | .error e => .err e
  | .ok (kind, buf1) =>
    if kind = 0x0001 then .ok (.Void, buf1)
    else if kind = 0x0002 then
      match deser_rows buf1 with
      | .ok (r, rest) => .ok (.Rows r, rest)
      | .err e => .err e
      | .abortedPanic => .abortedPanic
    else if kind = 0x0003 then
      match deser_set_keyspace buf1 with
      | .ok (r, rest) => .ok (.SetKeyspace r, rest)
      | .error e => .err e
    else if kind = 0x0004 then
      match deser_prepared buf1 with
      | .ok (r, rest) => .ok (.Prepared r, rest)
      | .err e => .err e
      | .abortedPanic => .abortedPanic
    else if kind = 0x0005 then
      match deser_schema_change buf1 with
      | .ok (r, rest) => .ok (.SchemaChange r, rest)
      | .error e => .err e
    else .err (.BadData ("Unknown query result id: " ++ toString kind))

/-! Spec-side encoders and small helpers used to state the claims. -/

/-- Big-endian 4-byte encoding of a 32-bit value (spec §3 framing rules). -/
def int32be (n : Nat) : Bytes := [n / 2 ^ 24 % 256, n / 2 ^ 16 % 256, n / 2 ^ 8 % 256, n % 256]

/-- Big-endian 2-byte encoding of a 16-bit value (spec §3 framing rules). -/
def short16be (n : Nat) : Bytes := [n / 256 % 256, n % 256]

/-- A wire `[bytes]` value with a non-negative length prefix (spec §3). -/
def wireBytes (p : Bytes) : Bytes := int32be p.length ++ p

/-- Concatenation of `[bytes]`-framed payloads (a collection body's tail). -/
def catPayloads (ps : List Bytes) : Bytes := (ps.map wireBytes).flatten

/-- A wire `[string]` value: `short` length then the bytes (spec §3). -/
def write_string (s : RStr) : Bytes := short16be s.length ++ s

/-- Does this decode result carry any `ParseError`? -/
def isErr {α : Type} : Except ParseError α → Bool
  | .error _ => true
  | .ok _ => false

/-- Adjacent byte-lexicographic ascent of the field names of a decoded UDT
map: the map's iteration order is strictly ascending by name. -/
def fieldNamesSorted : List (RStr × Option CQLValue) → Bool
  | [] => true
  | [_] => true
  | a :: b :: r => bytesLt a.1 b.1 && fieldNamesSorted (b :: r)

/-! Monad-unfolding helpers for `Except`. -/

theorem bind_ok_eq {α β : Type} (a : α) (f : α → Except ParseError β) :
    Bind.bind (Except.ok a) f = f a := rfl

theorem bind_error_eq {α β : Type} (e : ParseError) (f : α → Except ParseError β) :
    Bind.bind (Except.error e) f = Except.error e := rfl

theorem pure_eq_ok {α : Type} (a : α) : (pure a : Except ParseError α) = Except.ok a := rfl

/-- Each successfully decoded row has one cell per column spec. -/
theorem deser_row_cells_length :
    ∀ (specs : List ColumnSpec) (buf : Bytes) (cols : List (Option CQLValue)) (rest : Bytes),
      deser_row_cells specs buf = .ok (cols, rest) → cols.length = specs.length := by
  intro specs
  induction specs with
  | nil =>
    intro buf cols rest h
    simp only [deser_row_cells, Except.ok.injEq, Prod.mk.injEq] at h
    simp [← h.1]
  | cons spec specs ih =>
    intro buf cols rest h
    simp only [deser_row_cells] at h
    cases hro : read_bytes_opt buf with
    | error e => rw [hro, bind_error_eq] at h; cases h
    | ok pr =>
      obtain ⟨ob, buf1⟩ := pr
      rw [hro, bind_ok_eq] at h
      cases ob with
      | none =>
        simp only [pure_eq_ok, bind_ok_eq] at h
        cases hrc : deser_row_cells specs buf1 with
        | error e => rw [hrc, bind_error_eq] at h; cases h
        | ok pr2 =>
          obtain ⟨cols2, buf2⟩ := pr2
          rw [hrc, bind_ok_eq] at h
          simp only [Except.ok.injEq, Prod.mk.injEq] at h
          rw [← h.1]
          simp [ih buf1 cols2 buf2 hrc]
      | some b =>
        simp only [] at h
        cases hdv : deser_cql_value spec.typ b with
        | error e => rw [hdv, bind_error_eq] at h; cases h
        | ok pr1 =>
          obtain ⟨v, vrest⟩ := pr1
          rw [hdv, bind_ok_eq] at h
          simp only [pure_eq_ok, bind_ok_eq] at h
          cases hrc : deser_row_cells specs buf1 with
          | error e => rw [hrc, bind_error_eq] at h; cases h
          | ok pr2 =>
            obtain ⟨cols2, buf2⟩ := pr2
            rw [hrc, bind_ok_eq] at h
            simp only [Except.ok.injEq, Prod.mk.injEq] at h
            rw [← h.1]
            simp [ih buf1 cols2 buf2 hrc]

/-- The row loop returns exactly `n` rows, each with one cell per spec. -/
theorem deser_rows_loop_shape :
    ∀ (n : Nat) (specs : List ColumnSpec) (buf : Bytes) (rows : List Row) (rest : Bytes),
      deser_rows_loop n specs buf = .ok (rows, rest) →
      rows.length = n ∧ ∀ row ∈ rows, row.columns.length = specs.length := by
  intro n
  induction n with
  | zero =>
    intro specs buf rows rest h
    simp only [deser_rows_loop, Except.ok.injEq, Prod.mk.injEq] at h
    rw [← h.1]
    simp
  | succ n ih =>
    intro specs buf rows rest h
    simp only [deser_rows_loop] at h
    cases hrc : deser_row_cells specs buf with
    | error e => rw [hrc, bind_error_eq] at h; cases h
    | ok pr =>
      obtain ⟨columns, buf1⟩ := pr
      rw [hrc, bind_ok_eq] at h
      cases hrl : deser_rows_loop n specs buf1 with
      | error e => rw [hrl, bind_error_eq] at h; cases h
      | ok pr2 =>
        obtain ⟨rows2, buf2⟩ := pr2
        rw [hrl, bind_ok_eq] at h
        simp only [Except.ok.injEq, Prod.mk.injEq] at h
        obtain ⟨hrows, -⟩ := h
        obtain ⟨hlen, hcols⟩ := ih specs buf1 rows2 buf2 hrl
        subst hrows
        refine ⟨by simp [hlen], ?_⟩
        intro row hrow
        rcases List.mem_cons.mp hrow with hhead | htail
        · subst hhead
          exact deser_row_cells_length specs buf columns buf1 hrc
        · exact hcols row htail

/-- C5: whenever `deser_rows` succeeds, the number of decoded rows equals the
`rows_count` integer read from the wire, and every decoded row has exactly
`metadata.col_count` column entries. -/
theorem c5_rows_shape (buf : Bytes) (r : Rows) (rest : Bytes)
    (h : deser_rows buf = .ok (r, rest)) :
    r.rows.length = r.rows_count ∧
    ∀ row ∈ r.rows, row.columns.length = r.metadata.col_count := by
  simp only [deser_rows] at h
  cases hm : deser_result_metadata buf with
  | error e => rw [hm] at h; cases h
  | ok pr =>
    obtain ⟨metadata, buf1⟩ := pr
    rw [hm] at h
    dsimp only at h
    by_cases hc : metadata.col_count = metadata.col_specs.length
    · rw [if_pos hc] at h
      cases hri : read_int buf1 with
      | error e => rw [hri] at h; cases h
      | ok pr1 =>
        obtain ⟨rcI, buf2⟩ := pr1
        rw [hri] at h
        dsimp only at h
        cases hu : intToUsize rcI with
        | error e => rw [hu] at h; cases h
        | ok rows_count =>
          rw [hu] at h
          dsimp only at h
          cases hrl : deser_rows_loop rows_count metadata.col_specs buf2 with
          | error e => rw [hrl] at h; cases h
          | ok pr2 =>
            obtain ⟨rows, buf3⟩ := pr2
            rw [hrl] at h
            simp only [PResult.ok.injEq, Prod.mk.injEq] at h
            obtain ⟨hr, -⟩ := h
            subst hr
            obtain ⟨hlen, hcols⟩ := deser_rows_loop_shape rows_count metadata.col_specs buf2 rows buf3 hrl
            exact ⟨hlen, fun row hrow => by rw [hc]; exact hcols row hrow⟩
    · rw [if_neg hc] at h; cases h

/-- C5 witness: the shape properties at a concrete one-row Rows body. -/
theorem c5_rows_shape_witness :
    (⟨⟨1, none, [⟨⟨[0x6b, 0x73], [0x74]⟩, [0x61], ColumnType.Int⟩]⟩, 1,
        [⟨[some (CQLValue.Int 42)]⟩]⟩ : Rows).rows.length
      = (⟨⟨1, none, [⟨⟨[0x6b, 0x73], [0x74]⟩, [0x61], ColumnType.Int⟩]⟩, 1,
        [⟨[some (CQLValue.Int 42)]⟩]⟩ : Rows).rows_count ∧
    ∀ row ∈ (⟨⟨1, none, [⟨⟨[0x6b, 0x73], [0x74]⟩, [0x61], ColumnType.Int⟩]⟩, 1,
        [⟨[some (CQLValue.Int 42)]⟩]⟩ : Rows).rows,
      row.columns.length
        = (⟨⟨1, none, [⟨⟨[0x6b, 0x73], [0x74]⟩, [0x61], ColumnType.Int⟩]⟩, 1,
            [⟨[some (CQLValue.Int 42)]⟩]⟩ : Rows).metadata.col_count :=
  c5_rows_shape
    [0x00, 0x00, 0x00, 0x00, 0x00, 0x00, 0x00, 0x01,
     0x00, 0x02, 0x6b, 0x73, 0x00, 0x01, 0x74, 0x00, 0x01, 0x61,
     0x00, 0x09, 0x00, 0x00, 0x00, 0x01, 0x00, 0x00, 0x00, 0x04,
     0x00, 0x00, 0x00, 0x2A]
    ⟨⟨1, none, [⟨⟨[0x6b, 0x73], [0x74]⟩, [0x61], ColumnType.Int⟩]⟩, 1,
      [⟨[some (CQLValue.Int 42)]⟩]⟩ [] rfl

/-! Claim theorems. -/

/-- C1: the claim says the top-level result deserializer is total and never
panics, every structural violation (a Rows metadata with the `no_metadata`
flag and a positive `col_count`; a Prepared body ending before `id_len`
bytes of id) surfacing as a `ParseError`.  The code instead aborts on both
named inputs: `deser_rows` keeps `assert!(metadata.col_count ==
metadata.col_specs.len())` and `deser_prepared` slices `buf[0..id_len]`
unchecked, so both decode attempts end in the abort outcome, not an error
value. -/
theorem c1_deserialize_aborts_on_malformed_input :
    deserialize [0x00, 0x00, 0x00, 0x02, 0x00, 0x00, 0x00, 0x04, 0x00, 0x00, 0x00, 0x01]
        = PResult.abortedPanic ∧
    deserialize [0x00, 0x00, 0x00, 0x04, 0x00, 0x01] = PResult.abortedPanic :=
  ⟨rfl, rfl⟩

/-- C9 counterexample: the byte string given by the claim does not decode to
the stated Rows result; its column-spec region is mis-framed (the keyspace
[string] is written with length 4, absorbing the bytes meant for "ks", so
the type tag is read from bytes `76 00`), and `deserialize` fails with
`TypeNotImplemented 0x7600`. -/
theorem c9_original_bytes_fail :
    deserialize
        [0x00, 0x00, 0x00, 0x02, 0x00, 0x00, 0x00, 0x00, 0x00, 0x00, 0x00, 0x01,
         0x00, 0x04, 0x00, 0x05, 0x6b, 0x73, 0x00, 0x01, 0x74, 0x00, 0x01, 0x61,
         0x76, 0x00, 0x09, 0x00, 0x00, 0x00, 0x01, 0x00, 0x00, 0x00, 0x04,
         0x00, 0x00, 0x00, 0x2A]
      = PResult.err (ParseError.TypeNotImplemented 0x7600) := rfl

/-- C9 (amended): with the column-spec region correctly framed
(`0002 6b73` for "ks", `0001 74` for "t", `0001 61` for "a", `0009` for
Int), `deserialize` yields a Rows result with `col_count` 1, the single
column spec `(ks, t, a, Int)`, no paging state, and exactly one row whose
single column is `Some(Int 42)`, with the input fully consumed. -/
theorem c9_corrected_bytes_decode :
    deserialize
        [0x00, 0x00, 0x00, 0x02, 0x00, 0x00, 0x00, 0x00, 0x00, 0x00, 0x00, 0x01,
         0x00, 0x02, 0x6b, 0x73, 0x00, 0x01, 0x74, 0x00, 0x01, 0x61,
         0x00, 0x09, 0x00, 0x00, 0x00, 0x01, 0x00, 0x00, 0x00, 0x04,
         0x00, 0x00, 0x00, 0x2A]
      = PResult.ok
          (Result.Rows
            ⟨⟨1, none, [⟨⟨[0x6b, 0x73], [0x74]⟩, [0x61], ColumnType.Int⟩]⟩, 1,
              [⟨[some (CQLValue.Int 42)]⟩]⟩, []) := rfl

/-- C2 counterexample: a UserDefinedType descriptor declaring fields in the
order `b`, `a` decodes (field `b` carrying Int 1, field `a` carrying Int 2)
to a field map iterating as `a`, `b` — the `BTreeMap` iterates in ascending
name order, not in the declared wire order. -/
theorem c2_udt_declared_order_not_preserved :
    deser_cql_value
        (ColumnType.UserDefinedType [0x74] [0x6b] [([0x62], ColumnType.Int), ([0x61], ColumnType.Int)])
        [0x00, 0x00, 0x00, 0x04, 0x00, 0x00, 0x00, 0x01,
         0x00, 0x00, 0x00, 0x04, 0x00, 0x00, 0x00, 0x02]
      = Except.ok
          (CQLValue.UserDefinedType [0x6b] [0x74]
            [([0x61], some (CQLValue.Int 2)), ([0x62], some (CQLValue.Int 1))], []) ∧
    [([0x61], some (CQLValue.Int 2)), ([0x62], some (CQLValue.Int 1))].map Prod.fst
      ≠ [([0x62], ColumnType.Int), ([0x61], ColumnType.Int)].map Prod.fst :=
  ⟨rfl, by decide⟩

/-- C3 counterexample: in a Tuple, an element whose `[bytes]` length prefix
is the negative NULL sentinel does not decode to an absent element — the
source reads tuple elements with `read_bytes`, whose negative length is
rejected, so the decode fails. -/
theorem c3_tuple_null_element_fails :
    deser_cql_value (ColumnType.Tuple [ColumnType.Int]) [0xFF, 0xFF, 0xFF, 0xFF]
      = Except.error (ParseError.BadData "out of range integral type conversion attempted") := rfl

/-- C4 counterexample: a Boolean payload byte `0x80` decodes to `false`,
not `true` — the source reads the byte as a signed `i8` (`read_i8() > 0`),
so bytes `0x80`–`0xFF` are negative and decode to `false`. -/
theorem c4_boolean_0x80_is_false :
    deser_cql_value ColumnType.Boolean [0x80] = Except.ok (CQLValue.Boolean false, []) := rfl

/-- C4 (amended): a 1-byte Boolean payload decodes to `true` exactly when
the byte, read as a signed `i8`, is positive — bytes `0x01`–`0x7F`; bytes
`0x80`–`0xFF` decode to `false`.  Any payload whose length differs from 1
fails with `ParseError::BadData`. -/
theorem c4_boolean_signed_semantics :
    (∀ b : Nat, b < 256 →
      deser_cql_value ColumnType.Boolean [b]
        = Except.ok (CQLValue.Boolean (decide (0 < b ∧ b < 128)), [])) ∧
    (∀ buf : Bytes, buf.length ≠ 1 →
      deser_cql_value ColumnType.Boolean buf
        = Except.error
            (ParseError.BadData ("Buffer length should be 1 not " ++ toString buf.length))) := by
  constructor
  · intro b hb
    show deser_cql_valueF ([b].length + 1) ColumnType.Boolean [b] = _
    simp only [List.length_cons, List.length_nil, deser_cql_valueF, beVal, List.foldl, if_true]
    have h : (0 < toSigned8 b) ↔ (0 < b ∧ b < 128) := by
      simp only [toSigned8]
      split <;> omega
    simp only [Nat.zero_mul, Nat.zero_add, List.drop_succ_cons, List.drop_nil]
    rw [show (decide (0 < toSigned8 b)) = (decide (0 < b ∧ b < 128)) from by
      rw [decide_eq_decide]; exact h]
  · intro buf h
    show deser_cql_valueF (buf.length + 1) ColumnType.Boolean buf = _
    simp only [deser_cql_valueF]
    rw [if_neg h]

/-- C4 witness: instances of both conjuncts at concrete inputs. -/
theorem c4_boolean_signed_semantics_witness :
    deser_cql_value ColumnType.Boolean [0xC8]
      = Except.ok (CQLValue.Boolean (decide (0 < 0xC8 ∧ 0xC8 < 128)), []) ∧
    deser_cql_value ColumnType.Boolean [0x00, 0x01]
      = Except.error
          (ParseError.BadData ("Buffer length should be 1 not " ++ toString (2 : Nat))) :=
  ⟨c4_boolean_signed_semantics.1 0xC8 (by decide),
   c4_boolean_signed_semantics.2 [0x00, 0x01] (by decide)⟩

/-- C8: any payload containing a byte at or above `0x80` fails to decode as
Ascii with `ParseError::BadData`; the same payload decodes as Text exactly
when it is valid UTF-8, and fails with a `ParseError` otherwise. -/
theorem c8_ascii_strict_text_utf8 :
    (∀ buf : Bytes, ∀ b ∈ buf, 0x80 ≤ b →
      deser_cql_value ColumnType.Ascii buf
        = Except.error (ParseError.BadData "String is not ascii!")) ∧
    (∀ buf : Bytes, utf8Valid buf = true →
      deser_cql_value ColumnType.Text buf = Except.ok (CQLValue.Text buf, buf)) ∧
    (∀ buf : Bytes, utf8Valid buf = false →
      deser_cql_value ColumnType.Text buf
        = Except.error (ParseError.BadData "invalid utf-8 sequence")) := by
  refine ⟨?_, ?_, ?_⟩
  · intro buf b hmem hb
    show deser_cql_valueF (buf.length + 1) ColumnType.Ascii buf = _
    simp only [deser_cql_valueF]
    have hall : buf.all (fun b => b < 0x80) = false := by
      simp only [List.all_eq_false]
      exact ⟨b, hmem, by simpa using hb⟩
    rw [hall]
    simp
  · intro buf h
    show deser_cql_valueF (buf.length + 1) ColumnType.Text buf = _
    simp only [deser_cql_valueF]
    rw [if_pos h]
  · intro buf h
    show deser_cql_valueF (buf.length + 1) ColumnType.Text buf = _
    simp only [deser_cql_valueF]
    rw [if_neg (by simp [h])]

/-- C8 witness: instances of the three conjuncts at concrete payloads
(`41 80`; the valid UTF-8 `C3 A9`; the invalid UTF-8 `C3 28`). -/
theorem c8_ascii_strict_text_utf8_witness :
    deser_cql_value ColumnType.Ascii [0x41, 0x80]
      = Except.error (ParseError.BadData "String is not ascii!") ∧
    deser_cql_value ColumnType.Text [0xC3, 0xA9]
      = Except.ok (CQLValue.Text [0xC3, 0xA9], [0xC3, 0xA9]) ∧
    deser_cql_value ColumnType.Text [0xC3, 0x28]
      = Except.error (ParseError.BadData "invalid utf-8 sequence") :=
  ⟨c8_ascii_strict_text_utf8.1 [0x41, 0x80] 0x80 (by decide) (by decide),
   c8_ascii_strict_text_utf8.2.1 [0xC3, 0xA9] (by decide),
   c8_ascii_strict_text_utf8.2.2 [0xC3, 0x28] (by decide)⟩


/-- `bytesLt` is irreflexive. -/
theorem bytesLt_irrefl : ∀ a : Bytes, bytesLt a a = false
  | [] => rfl
  | x :: xs => by simp [bytesLt, bytesLt_irrefl xs]

/-- `bytesLt` is asymmetric. -/
theorem bytesLt_asymm : ∀ a b : Bytes, bytesLt a b = true → bytesLt b a = false
  | [], [] => by simp [bytesLt]
  | [], _ :: _ => by simp [bytesLt]
  | _ :: _, [] => by simp [bytesLt]
  | x :: xs, y :: ys => by
    intro h
    simp only [bytesLt] at h ⊢
    by_cases hxy : x < y
    · rw [if_neg (by omega : ¬y < x), if_neg (by omega : ¬y = x)]
    · rw [if_neg hxy] at h
      by_cases hxe : x = y
      · rw [if_pos hxe] at h
        subst hxe
        rw [if_neg (by omega : ¬x < x), if_pos rfl]
        exact bytesLt_asymm xs ys h
      · rw [if_neg hxe] at h; cases h

/-- `bytesLt` is total on distinct byte strings. -/
theorem bytesLt_total : ∀ a b : Bytes, bytesLt a b = false → a ≠ b → bytesLt b a = true
  | [], [] => by intro h hne; exact absurd rfl hne
  | [], _ :: _ => by intro h; simp [bytesLt] at h
  | x :: xs, [] => by intro h hne; simp [bytesLt]
  | x :: xs, y :: ys => by
    intro h hne
    simp only [bytesLt] at h ⊢
    by_cases hxy : x < y
    · rw [if_pos hxy] at h; cases h
    · by_cases hyx : y < x
      · rw [if_pos hyx]
      · have hxe : x = y := by omega
        subst hxe
        rw [if_neg hxy, if_pos rfl] at h
        rw [if_neg hyx, if_pos rfl]
        refine bytesLt_total xs ys h (fun hh => hne ?_)
        rw [hh]

/-- Strictly smaller keys are distinct. -/
theorem bytesLt_ne (a b : Bytes) (h : bytesLt a b = true) : a ≠ b := by
  intro he
  subst he
  rw [bytesLt_irrefl a] at h
  cases h

/-- `btreeInsert` keeps the field map sorted. -/
theorem btreeInsert_sorted (k : RStr) (v : Option CQLValue) :
    ∀ l : List (RStr × Option CQLValue), fieldNamesSorted l = true →
      fieldNamesSorted (btreeInsert k v l) = true := by
  intro l
  induction l with
  | nil => intro _; rfl
  | cons p rest ih =>
    intro hs
    obtain ⟨k', v'⟩ := p
    simp only [btreeInsert]
    by_cases h1 : bytesLt k k' = true
    · rw [if_pos h1]
      show (bytesLt k k' && fieldNamesSorted ((k', v') :: rest)) = true
      rw [h1, hs]
      rfl
    · rw [if_neg h1]
      by_cases h2 : k = k'
      · rw [if_pos h2]
        subst h2
        cases rest with
        | nil => rfl
        | cons q rest2 =>
          show (bytesLt k q.1 && fieldNamesSorted (q :: rest2)) = true
          have : (bytesLt k q.1 && fieldNamesSorted (q :: rest2)) = fieldNamesSorted ((k, v') :: q :: rest2) := rfl
          rw [this]
          exact hs
      · rw [if_neg h2]
        -- sortedness of rest from hs
        have hrest : fieldNamesSorted rest = true := by
          cases rest with
          | nil => rfl
          | cons q rest2 =>
            have : fieldNamesSorted ((k', v') :: q :: rest2)
                = (bytesLt k' q.1 && fieldNamesSorted (q :: rest2)) := rfl
            rw [this] at hs
            exact (Bool.and_eq_true_iff.mp hs).2
        have hk'k : bytesLt k' k = true :=
          bytesLt_total k k' (by revert h1; cases bytesLt k k' <;> simp) h2
        have hins := ih hrest
        -- adjacency between k' and the head of the inserted list
        cases rest with
        | nil =>
          show (bytesLt k' k && true) = true
          simp [hk'k]
        | cons q rest2 =>
          have hadj : bytesLt k' q.1 = true := by
            have : fieldNamesSorted ((k', v') :: q :: rest2)
                = (bytesLt k' q.1 && fieldNamesSorted (q :: rest2)) := rfl
            rw [this] at hs
            exact (Bool.and_eq_true_iff.mp hs).1
          obtain ⟨q1, q2⟩ := q
          simp only [btreeInsert] at hins ⊢
          by_cases hI1 : bytesLt k q1 = true
          · rw [if_pos hI1] at hins ⊢
            show (bytesLt k' k && fieldNamesSorted ((k, v) :: (q1, q2) :: rest2)) = true
            rw [hk'k, hins]
            rfl
          · rw [if_neg hI1] at hins ⊢
            by_cases hI2 : k = q1
            · rw [if_pos hI2] at hins ⊢
              show (bytesLt k' k && fieldNamesSorted ((k, v) :: rest2)) = true
              rw [hk'k, hins]
              rfl
            · rw [if_neg hI2] at hins ⊢
              show (bytesLt k' q1 && fieldNamesSorted ((q1, q2) :: btreeInsert k v rest2)) = true
              rw [hadj, hins]
              rfl

/-- Inserting a key above every key of a sorted map appends it at the end. -/
theorem btreeInsert_append (k : RStr) (v : Option CQLValue) :
    ∀ l : List (RStr × Option CQLValue), (∀ p ∈ l, bytesLt p.1 k = true) →
      btreeInsert k v l = l ++ [(k, v)] := by
  intro l
  induction l with
  | nil => intro _; rfl
  | cons p rest ih =>
    intro hb
    obtain ⟨k', v'⟩ := p
    have hk'k : bytesLt k' k = true := hb (k', v') (by simp)
    simp only [btreeInsert]
    rw [if_neg (by rw [bytesLt_asymm k' k hk'k]; simp),
        if_neg (fun hh => bytesLt_ne k' k hk'k hh.symm)]
    rw [ih (fun p hp => hb p (List.mem_cons_of_mem _ hp))]
    simp

/-- The UDT field loop keeps the accumulated map sorted. -/
theorem loopUdtFieldsF_sorted (dec : ColumnType → Bytes → Except ParseError (CQLValue × Bytes)) :
    ∀ (fts : List (RStr × ColumnType)) (fields : List (RStr × Option CQLValue)) (buf : Bytes)
      (res : List (RStr × Option CQLValue)) (rest : Bytes),
      fieldNamesSorted fields = true →
      loopUdtFieldsF dec fts fields buf = .ok (res, rest) →
      fieldNamesSorted res = true := by
  intro fts
  induction fts with
  | nil =>
    intro fields buf res rest hs h
    simp only [loopUdtFieldsF, Except.ok.injEq, Prod.mk.injEq] at h
    rw [← h.1]
    exact hs
  | cons p fts ih =>
    intro fields buf res rest hs h
    obtain ⟨field_name, field_type⟩ := p
    simp only [loopUdtFieldsF] at h
    cases hro : read_bytes_opt buf with
    | error e => rw [hro, bind_error_eq] at h; cases h
    | ok pr =>
      obtain ⟨ob, buf1⟩ := pr
      rw [hro, bind_ok_eq] at h
      cases ob with
      | none =>
        simp only [pure_eq_ok, bind_ok_eq] at h
        exact ih _ buf1 res rest (btreeInsert_sorted field_name none fields hs) h
      | some fb =>
        simp only [] at h
        cases hdv : dec field_type fb with
        | error e => rw [hdv, bind_error_eq] at h; cases h
        | ok pr1 =>
          obtain ⟨v, vrest⟩ := pr1
          rw [hdv, bind_ok_eq] at h
          simp only [pure_eq_ok, bind_ok_eq] at h
          exact ih _ buf1 res rest (btreeInsert_sorted field_name (some v) fields hs) h

/-- With strictly ascending declared names, the UDT field loop appends each
field in declared order. -/
theorem loopUdtFieldsF_names (dec : ColumnType → Bytes → Except ParseError (CQLValue × Bytes)) :
    ∀ (fts : List (RStr × ColumnType)) (acc : List (RStr × Option CQLValue)) (buf : Bytes)
      (res : List (RStr × Option CQLValue)) (rest : Bytes),
      List.Pairwise (fun a b => bytesLt a b = true) (fts.map Prod.fst) →
      (∀ p ∈ acc, ∀ q ∈ fts, bytesLt p.1 q.1 = true) →
      loopUdtFieldsF dec fts acc buf = .ok (res, rest) →
      res.map Prod.fst = acc.map Prod.fst ++ fts.map Prod.fst := by
  intro fts
  induction fts with
  | nil =>
    intro acc buf res rest _ _ h
    simp only [loopUdtFieldsF, Except.ok.injEq, Prod.mk.injEq] at h
    rw [← h.1]
    simp
  | cons p fts ih =>
    intro acc buf res rest hpw hb h
    obtain ⟨field_name, field_type⟩ := p
    simp only [List.map_cons, List.pairwise_cons] at hpw
    obtain ⟨hhead, htail⟩ := hpw
    have hacc : ∀ v0 : Option CQLValue, btreeInsert field_name v0 acc = acc ++ [(field_name, v0)] :=
      fun v0 => btreeInsert_append field_name v0 acc
        (fun p hp => hb p hp (field_name, field_type) (by simp))
    have hb' : ∀ v0 : Option CQLValue, ∀ p ∈ acc ++ [(field_name, v0)], ∀ q ∈ fts,
        bytesLt p.1 q.1 = true := by
      intro v0 p hp q hq
      rcases List.mem_append.mp hp with hp1 | hp2
      · exact hb p hp1 q (List.mem_cons_of_mem _ hq)
      · have : p = (field_name, v0) := by simpa using hp2
        subst this
        exact hhead q.1 (List.mem_map_of_mem Prod.fst hq)
    simp only [loopUdtFieldsF] at h
    cases hro : read_bytes_opt buf with
    | error e => rw [hro, bind_error_eq] at h; cases h
    | ok pr =>
      obtain ⟨ob, buf1⟩ := pr
      rw [hro, bind_ok_eq] at h
      cases ob with
      | none =>
        simp only [pure_eq_ok, bind_ok_eq] at h
        rw [hacc none] at h
        have := ih (acc ++ [(field_name, none)]) buf1 res rest htail (hb' none) h
        rw [this]
        simp
      | some fb =>
        simp only [] at h
        cases hdv : dec field_type fb with
        | error e => rw [hdv, bind_error_eq] at h; cases h
        | ok pr1 =>
          obtain ⟨v, vrest⟩ := pr1
          rw [hdv, bind_ok_eq] at h
          simp only [pure_eq_ok, bind_ok_eq] at h
          rw [hacc (some v)] at h
          have := ih (acc ++ [(field_name, some v)]) buf1 res rest htail (hb' (some v)) h
          rw [this]
          simp


/-- C2 (amended): iterating a successfully decoded UDT field map yields the
fields in ascending byte-lexicographic field-name order (the `BTreeMap`
iteration order); when the declared field names are already strictly
ascending, this coincides with the declared wire order. -/
theorem c2_udt_iteration_order (tn ks : RStr) (fts : List (RStr × ColumnType)) (buf : Bytes)
    (ks' tn' : RStr) (fields : List (RStr × Option CQLValue)) (rest : Bytes)
    (h : deser_cql_value (ColumnType.UserDefinedType tn ks fts) buf
      = .ok (.UserDefinedType ks' tn' fields, rest)) :
    fieldNamesSorted fields = true ∧
    (List.Pairwise (fun a b => bytesLt a b = true) (fts.map Prod.fst) →
      fields.map Prod.fst = fts.map Prod.fst) := by
  simp only [deser_cql_value, deser_cql_valueF] at h
  cases hl : loopUdtFieldsF (fun t b => deser_cql_valueF buf.length t b) fts [] buf with
  | error e => rw [hl, bind_error_eq] at h; cases h
  | ok pr =>
    obtain ⟨fields0, buf1⟩ := pr
    rw [hl, bind_ok_eq] at h
    simp only [Except.ok.injEq, Prod.mk.injEq, CQLValue.UserDefinedType.injEq] at h
    obtain ⟨⟨-, -, hf⟩, -⟩ := h
    subst hf
    constructor
    · exact loopUdtFieldsF_sorted _ fts [] buf fields0 buf1 rfl hl
    · intro hpw
      have hnm := loopUdtFieldsF_names _ fts [] buf fields0 buf1 hpw (by simp) hl
      simpa using hnm

/-- C2 witness: the amended properties at a two-field UDT whose declared
names are ascending. -/
theorem c2_udt_iteration_order_witness :
    fieldNamesSorted [([0x61], some (CQLValue.Int 1)), ([0x62], some (CQLValue.Int 2))] = true ∧
    (List.Pairwise (fun a b => bytesLt a b = true)
        ([([0x61], ColumnType.Int), ([0x62], ColumnType.Int)].map Prod.fst) →
      [([0x61], some (CQLValue.Int 1)), ([0x62], some (CQLValue.Int 2))].map Prod.fst
        = [([0x61], ColumnType.Int), ([0x62], ColumnType.Int)].map Prod.fst) :=
  c2_udt_iteration_order [0x74] [0x6b] [([0x61], ColumnType.Int), ([0x62], ColumnType.Int)]
    [0x00, 0x00, 0x00, 0x04, 0x00, 0x00, 0x00, 0x01,
     0x00, 0x00, 0x00, 0x04, 0x00, 0x00, 0x00, 0x02]
    [0x6b] [0x74] [([0x61], some (CQLValue.Int 1)), ([0x62], some (CQLValue.Int 2))] [] rfl


/-- Shape of a successful `takeN`. -/
theorem takeN_spec (n : Nat) (buf bs rest : Bytes) (h : takeN n buf = .ok (bs, rest)) :
    bs.length = n ∧ rest.length + n = buf.length := by
  simp only [takeN] at h
  by_cases hle : n ≤ buf.length
  · rw [if_pos hle] at h
    simp only [Except.ok.injEq, Prod.mk.injEq] at h
    obtain ⟨h1, h2⟩ := h
    subst h1; subst h2
    simp [List.length_take, List.length_drop]
    omega
  · rw [if_neg hle] at h; cases h

/-- A successful `read_int` consumes exactly 4 bytes. -/
theorem read_int_consume (buf : Bytes) (i : Int) (rest : Bytes)
    (h : read_int buf = .ok (i, rest)) : rest.length + 4 = buf.length := by
  simp only [read_int] at h
  cases ht : takeN 4 buf with
  | error e => rw [ht, bind_error_eq] at h; cases h
  | ok pr =>
    obtain ⟨bs, rest'⟩ := pr
    rw [ht, bind_ok_eq] at h
    simp only [Except.ok.injEq, Prod.mk.injEq] at h
    obtain ⟨-, h2⟩ := h
    subst h2
    exact (takeN_spec 4 buf bs rest' ht).2

/-- A successful `read_bytes` consumes its 4-byte prefix plus the payload. -/
theorem read_bytes_spec (buf b rest : Bytes) (h : read_bytes buf = .ok (b, rest)) :
    b.length + rest.length + 4 = buf.length := by
  simp only [read_bytes] at h
  cases hri : read_int buf with
  | error e => rw [hri, bind_error_eq] at h; cases h
  | ok pr =>
    obtain ⟨i, buf1⟩ := pr
    rw [hri, bind_ok_eq] at h
    cases hu : intToUsize i with
    | error e => rw [hu, bind_error_eq] at h; cases h
    | ok n =>
      rw [hu, bind_ok_eq] at h
      have h4 := read_int_consume buf i buf1 hri
      have hts := takeN_spec n buf1 b rest h
      omega

/-- A successful `read_bytes_opt` consumes at least its 4-byte prefix; a
present payload accounts exactly for the rest. -/
theorem read_bytes_opt_spec (buf : Bytes) (ob : Option Bytes) (rest : Bytes)
    (h : read_bytes_opt buf = .ok (ob, rest)) :
    rest.length + 4 ≤ buf.length ∧
    ∀ b, ob = some b → b.length + rest.length + 4 = buf.length := by
  simp only [read_bytes_opt] at h
  cases hri : read_int buf with
  | error e => rw [hri, bind_error_eq] at h; cases h
  | ok pr =>
    obtain ⟨i, buf1⟩ := pr
    rw [hri, bind_ok_eq] at h
    have h4 := read_int_consume buf i buf1 hri
    by_cases hi : i < 0
    · rw [if_pos hi] at h
      simp only [Except.ok.injEq, Prod.mk.injEq] at h
      obtain ⟨h1, h2⟩ := h
      subst h2
      refine ⟨by omega, ?_⟩
      intro b hb
      rw [← h1] at hb
      cases hb
    · rw [if_neg hi] at h
      cases ht : takeN i.toNat buf1 with
      | error e => rw [ht, bind_error_eq] at h; cases h
      | ok pr1 =>
        obtain ⟨bs, rest'⟩ := pr1
        rw [ht, bind_ok_eq] at h
        simp only [Except.ok.injEq, Prod.mk.injEq] at h
        obtain ⟨h1, h2⟩ := h
        subst h2
        have hts := takeN_spec i.toNat buf1 bs rest' ht
        refine ⟨by omega, ?_⟩
        intro b hb
        rw [← h1] at hb
        cases hb
        omega

/-- Fuel-independence of the `List`/`Set` element loop, given pointwise
agreement of the element decoders on strictly smaller payloads. -/
theorem loopElemsF_congr (dec1 dec2 : Bytes → Except ParseError (CQLValue × Bytes)) (B : Nat)
    (hd : ∀ b : Bytes, b.length + 4 ≤ B → dec1 b = dec2 b) :
    ∀ (n : Nat) (buf : Bytes), buf.length ≤ B →
      loopElemsF dec1 n buf = loopElemsF dec2 n buf := by
  intro n
  induction n with
  | zero => intro buf _; rfl
  | succ n ih =>
    intro buf hB
    simp only [loopElemsF]
    cases hrb : read_bytes buf with
    | error e => rfl
    | ok pr =>
      obtain ⟨b, buf1⟩ := pr
      have hsp := read_bytes_spec buf b buf1 hrb
      simp only [bind_ok_eq]
      rw [hd b (by omega)]
      cases dec2 b with
      | error e => rfl
      | ok pr1 =>
        obtain ⟨v, vrest⟩ := pr1
        simp only [bind_ok_eq]
        rw [ih buf1 (by omega)]

/-- Fuel-independence of the `Map` entry loop. -/
theorem loopPairsF_congr (decK1 decK2 decV1 decV2 : Bytes → Except ParseError (CQLValue × Bytes))
    (B : Nat)
    (hk : ∀ b : Bytes, b.length + 4 ≤ B → decK1 b = decK2 b)
    (hv : ∀ b : Bytes, b.length + 4 ≤ B → decV1 b = decV2 b) :
    ∀ (n : Nat) (buf : Bytes), buf.length ≤ B →
      loopPairsF decK1 decV1 n buf = loopPairsF decK2 decV2 n buf := by
  intro n
  induction n with
  | zero => intro buf _; rfl
  | succ n ih =>
    intro buf hB
    simp only [loopPairsF]
    cases hrb : read_bytes buf with
    | error e => rfl
    | ok pr =>
      obtain ⟨bk, buf1⟩ := pr
      have hsp := read_bytes_spec buf bk buf1 hrb
      simp only [bind_ok_eq]
      rw [hk bk (by omega)]
      cases decK2 bk with
      | error e => rfl
      | ok prk =>
        obtain ⟨k, krest⟩ := prk
        simp only [bind_ok_eq]
        cases hrb2 : read_bytes buf1 with
        | error e => rfl
        | ok pr2 =>
          obtain ⟨bv, buf2⟩ := pr2
          have hsp2 := read_bytes_spec buf1 bv buf2 hrb2
          simp only [bind_ok_eq]
          rw [hv bv (by omega)]
          cases decV2 bv with
          | error e => rfl
          | ok prv =>
            obtain ⟨v, vrest⟩ := prv
            simp only [bind_ok_eq]
            rw [ih buf2 (by omega)]

/-- Fuel-independence of the UDT field loop. -/
theorem loopUdtFieldsF_congr
    (dec1 dec2 : ColumnType → Bytes → Except ParseError (CQLValue × Bytes)) (B : Nat)
    (hd : ∀ (t : ColumnType) (b : Bytes), b.length + 4 ≤ B → dec1 t b = dec2 t b) :
    ∀ (fts : List (RStr × ColumnType)) (acc : List (RStr × Option CQLValue)) (buf : Bytes),
      buf.length ≤ B →
      loopUdtFieldsF dec1 fts acc buf = loopUdtFieldsF dec2 fts acc buf := by
  intro fts
  induction fts with
  | nil => intro acc buf _; rfl
  | cons p fts ih =>
    intro acc buf hB
    obtain ⟨field_name, field_type⟩ := p
    simp only [loopUdtFieldsF]
    cases hro : read_bytes_opt buf with
    | error e => rfl
    | ok pr =>
      obtain ⟨ob, buf1⟩ := pr
      have hsp := read_bytes_opt_spec buf ob buf1 hro
      simp only [bind_ok_eq]
      cases ob with
      | none =>
        simp only [pure_eq_ok, bind_ok_eq]
        exact ih _ buf1 (by omega)
      | some fb =>
        have hfb := hsp.2 fb rfl
        simp only [pure_eq_ok, bind_ok_eq]
        rw [hd field_type fb (by omega)]
        cases dec2 field_type fb with
        | error e => rfl
        | ok pr1 =>
          obtain ⟨v, vrest⟩ := pr1
          simp only [bind_ok_eq]
          exact ih _ buf1 (by omega)

/-- Fuel-independence of the Tuple element loop. -/
theorem loopTupleF_congr
    (dec1 dec2 : ColumnType → Bytes → Except ParseError (CQLValue × Bytes)) (B : Nat)
    (hd : ∀ (t : ColumnType) (b : Bytes), b.length + 4 ≤ B → dec1 t b = dec2 t b) :
    ∀ (ts : List ColumnType) (buf : Bytes), buf.length ≤ B →
      loopTupleF dec1 ts buf = loopTupleF dec2 ts buf := by
  intro ts
  induction ts with
  | nil => intro buf _; rfl
  | cons t ts ih =>
    intro buf hB
    simp only [loopTupleF]
    cases hrb : read_bytes buf with
    | error e => rfl
    | ok pr =>
      obtain ⟨b, buf1⟩ := pr
      have hsp := read_bytes_spec buf b buf1 hrb
      simp only [bind_ok_eq]
      rw [hd t b (by omega)]
      cases dec2 t b with
      | error e => rfl
      | ok pr1 =>
        obtain ⟨v, vrest⟩ := pr1
        simp only [bind_ok_eq]
        rw [ih buf1 (by omega)]

/-- `deser_cql_valueF` does not depend on the fuel, as long as the fuel
exceeds the cursor length (each descent is into a payload at least 4 bytes
shorter). -/
theorem deser_cql_valueF_irrel :
    ∀ (f g : Nat) (typ : ColumnType) (buf : Bytes), buf.length < f → buf.length < g →
      deser_cql_valueF f typ buf = deser_cql_valueF g typ buf := by
  intro f
  induction f with
  | zero => intro g typ buf hf; exact absurd hf (Nat.not_lt_zero _)
  | succ f ih =>
    intro g typ buf hf hg
    cases g with
    | zero => exact absurd hg (Nat.not_lt_zero _)
    | succ g =>
      cases typ with
      | List t =>
        simp only [deser_cql_valueF]
        cases hri : read_int buf with
        | error e => rfl
        | ok pr =>
          obtain ⟨i, buf1⟩ := pr
          have h4 := read_int_consume buf i buf1 hri
          simp only [bind_ok_eq]
          cases intToUsize i with
          | error e => rfl
          | ok n =>
            simp only [bind_ok_eq]
            rw [loopElemsF_congr _ _ buf1.length
              (fun b hb => ih g t b (by omega) (by omega)) n buf1 (le_refl _)]
      | Map kt vt =>
        simp only [deser_cql_valueF]
        cases hri : read_int buf with
        | error e => rfl
        | ok pr =>
          obtain ⟨i, buf1⟩ := pr
          have h4 := read_int_consume buf i buf1 hri
          simp only [bind_ok_eq]
          cases intToUsize i with
          | error e => rfl
          | ok n =>
            simp only [bind_ok_eq]
            rw [loopPairsF_congr _ _ _ _ buf1.length
              (fun b hb => ih g kt b (by omega) (by omega))
              (fun b hb => ih g vt b (by omega) (by omega)) n buf1 (le_refl _)]
      | Set t =>
        simp only [deser_cql_valueF]
        cases hri : read_int buf with
        | error e => rfl
        | ok pr =>
          obtain ⟨i, buf1⟩ := pr
          have h4 := read_int_consume buf i buf1 hri
          simp only [bind_ok_eq]
          cases intToUsize i with
          | error e => rfl
          | ok n =>
            simp only [bind_ok_eq]
            rw [loopElemsF_congr _ _ buf1.length
              (fun b hb => ih g t b (by omega) (by omega)) n buf1 (le_refl _)]
      | UserDefinedType tn ks fts =>
        simp only [deser_cql_valueF]
        rw [loopUdtFieldsF_congr _ _ buf.length
          (fun t b hb => ih g t b (by omega) (by omega)) fts [] buf (le_refl _)]
      | Tuple ts =>
        simp only [deser_cql_valueF]
        rw [loopTupleF_congr _ _ buf.length
          (fun t b hb => ih g t b (by omega) (by omega)) ts buf (le_refl _)]
      | Ascii => rfl
      | Int => rfl
      | BigInt => rfl
      | Boolean => rfl
      | Counter => rfl
      | SmallInt => rfl
      | TinyInt => rfl
      | Date => rfl
      | Time => rfl
      | Timestamp => rfl
      | Text => rfl
      | Inet => rfl



/-- `beVal` recovers the value of its 4-byte big-endian encoding. -/
theorem beVal_int32be (n : Nat) (h : n < 2 ^ 32) : beVal (int32be n) = n := by
  simp only [int32be, beVal, List.foldl]
  omega

/-- `takeN` splits a framed payload off the cursor. -/
theorem takeN_left (p rest : Bytes) : takeN p.length (p ++ rest) = .ok (p, rest) := by
  simp only [takeN, List.length_append]
  rw [if_pos (by omega)]
  rw [List.take_left, List.drop_left]

/-- Reading the `int` length prefix of a framed payload. -/
theorem read_int_wire (n : Nat) (rest : Bytes) (h : n < 2 ^ 31) :
    read_int (int32be n ++ rest) = .ok ((n : Int), rest) := by
  have h4 : takeN 4 (int32be n ++ rest) = .ok (int32be n, rest) := by
    have : (int32be n).length = 4 := by simp [int32be]
    rw [← this]
    exact takeN_left (int32be n) rest
  simp only [read_int]
  rw [h4, bind_ok_eq]
  rw [beVal_int32be n (by omega)]
  simp only [toSigned32]
  rw [if_pos (by omega)]

/-- `read_bytes` consumes exactly one wire-framed payload. -/
theorem read_bytes_wire (p rest : Bytes) (hp : p.length < 2 ^ 31) :
    read_bytes (wireBytes p ++ rest) = .ok (p, rest) := by
  simp only [read_bytes, wireBytes, List.append_assoc]
  rw [read_int_wire p.length (p ++ rest) hp, bind_ok_eq]
  have : intToUsize (p.length : Int) = .ok p.length := by
    simp [intToUsize]
  rw [this, bind_ok_eq]
  exact takeN_left p rest

/-- `read_bytes_opt` consumes exactly one wire-framed present payload. -/
theorem read_bytes_opt_wire (p rest : Bytes) (hp : p.length < 2 ^ 31) :
    read_bytes_opt (wireBytes p ++ rest) = .ok (some p, rest) := by
  simp only [read_bytes_opt, wireBytes, List.append_assoc]
  rw [read_int_wire p.length (p ++ rest) hp, bind_ok_eq]
  rw [if_neg (by omega : ¬((p.length : Int) < 0))]
  rw [show ((p.length : Int)).toNat = p.length from by omega]
  rw [takeN_left p rest, bind_ok_eq]

/-- One-step unfolding of `deser_cql_valueF` at a UserDefinedType. -/
theorem deser_cql_valueF_udt (fuel : Nat) (tn ks : RStr) (fts : List (RStr × ColumnType))
    (buf : Bytes) :
    deser_cql_valueF (fuel + 1) (ColumnType.UserDefinedType tn ks fts) buf
      = Bind.bind (loopUdtFieldsF (fun t b => deser_cql_valueF fuel t b) fts [] buf)
          (fun r => Except.ok (CQLValue.UserDefinedType ks tn r.1, r.2)) := rfl

/-- C10: a UDT descriptor declaring the same field name twice decodes to a
field map with a single entry for that name, holding the value decoded from
the later (second) payload — the map has fewer entries than the declared
field count. -/
theorem c10_udt_duplicate_field_names (ks tn nm : RStr) (t : ColumnType) (p1 p2 : Bytes)
    (v1 v2 : CQLValue) (r1 r2 : Bytes)
    (h1 : deser_cql_value t p1 = .ok (v1, r1)) (h2 : deser_cql_value t p2 = .ok (v2, r2))
    (hp1 : p1.length < 2 ^ 31) (hp2 : p2.length < 2 ^ 31) :
    deser_cql_value (ColumnType.UserDefinedType tn ks [(nm, t), (nm, t)])
        (wireBytes p1 ++ wireBytes p2)
      = .ok (.UserDefinedType ks tn [(nm, some v2)], []) := by
  have hL1 : p1.length < (wireBytes p1 ++ wireBytes p2).length := by
    simp only [wireBytes, int32be, List.length_append, List.length_cons]
    omega
  have hL2 : p2.length < (wireBytes p1 ++ wireBytes p2).length := by
    simp only [wireBytes, int32be, List.length_append, List.length_cons]
    omega
  show deser_cql_valueF ((wireBytes p1 ++ wireBytes p2).length + 1) _ _ = _
  rw [deser_cql_valueF_udt]
  simp only [loopUdtFieldsF]
  rw [read_bytes_opt_wire p1 (wireBytes p2) hp1]
  simp only [bind_ok_eq, pure_eq_ok]
  rw [deser_cql_valueF_irrel (wireBytes p1 ++ wireBytes p2).length (p1.length + 1) t p1
    hL1 (by omega)]
  rw [show deser_cql_valueF (p1.length + 1) t p1 = deser_cql_value t p1 from rfl, h1]
  simp only [bind_ok_eq, pure_eq_ok]
  rw [show wireBytes p2 = wireBytes p2 ++ [] from (List.append_nil _).symm,
    read_bytes_opt_wire p2 [] hp2]
  simp only [bind_ok_eq, pure_eq_ok, List.append_nil]
  rw [deser_cql_valueF_irrel (wireBytes p1 ++ wireBytes p2).length (p2.length + 1) t p2
    hL2 (by omega)]
  rw [show deser_cql_valueF (p2.length + 1) t p2 = deser_cql_value t p2 from rfl, h2]
  simp only [bind_ok_eq, pure_eq_ok]
  simp [btreeInsert, bytesLt_irrefl]

/-- C10 witness: the duplicate-name collapse at concrete Int payloads. -/
theorem c10_udt_duplicate_field_names_witness :
    deser_cql_value
        (ColumnType.UserDefinedType [0x75] [0x6b] [([0x61], ColumnType.Int), ([0x61], ColumnType.Int)])
        (wireBytes [0x00, 0x00, 0x00, 0x01] ++ wireBytes [0x00, 0x00, 0x00, 0x02])
      = .ok (.UserDefinedType [0x6b] [0x75] [([0x61], some (CQLValue.Int 2))], []) :=
  c10_udt_duplicate_field_names [0x6b] [0x75] [0x61] ColumnType.Int
    [0x00, 0x00, 0x00, 0x01] [0x00, 0x00, 0x00, 0x02]
    (CQLValue.Int 1) (CQLValue.Int 2) [] [] rfl rfl (by decide) (by decide)



/-- One-step unfolding of `deser_cql_valueF` at a Set. -/
theorem deser_cql_valueF_set (fuel : Nat) (t : ColumnType) (buf : Bytes) :
    deser_cql_valueF (fuel + 1) (ColumnType.Set t) buf
      = Bind.bind (read_int buf) (fun r =>
          Bind.bind (intToUsize r.1) (fun len =>
            Bind.bind (loopElemsF (fun b => deser_cql_valueF fuel t b) len r.2)
              (fun r2 => Except.ok (CQLValue.Set r2.1, r2.2)))) := rfl

/-- One-step unfolding of `deser_cql_valueF` at a Tuple. -/
theorem deser_cql_valueF_tuple (fuel : Nat) (ts : List ColumnType) (buf : Bytes) :
    deser_cql_valueF (fuel + 1) (ColumnType.Tuple ts) buf
      = Bind.bind (loopTupleF (fun t b => deser_cql_valueF fuel t b) ts buf)
          (fun r => Except.ok (CQLValue.Tuple r.1, r.2)) := rfl

/-- `takeN 4` on an explicitly 4-byte-headed cursor. -/
theorem takeN_four (b0 b1 b2 b3 : Nat) (rest : Bytes) :
    takeN 4 (b0 :: b1 :: b2 :: b3 :: rest) = .ok ([b0, b1, b2, b3], rest) := by
  show takeN [b0, b1, b2, b3].length ([b0, b1, b2, b3] ++ rest) = _
  exact takeN_left _ _

/-- `read_int` on an explicitly 4-byte-headed cursor. -/
theorem read_int_cons (b0 b1 b2 b3 : Nat) (rest : Bytes) :
    read_int (b0 :: b1 :: b2 :: b3 :: rest)
      = .ok (toSigned32 (beVal [b0, b1, b2, b3]), rest) := by
  simp only [read_int]
  rw [takeN_four, bind_ok_eq]

/-- `read_bytes` fails on a negative length prefix. -/
theorem read_bytes_neg (b0 b1 b2 b3 : Nat) (rest : Bytes)
    (h : toSigned32 (beVal [b0, b1, b2, b3]) < 0) :
    read_bytes (b0 :: b1 :: b2 :: b3 :: rest)
      = .error (.BadData "out of range integral type conversion attempted") := by
  simp only [read_bytes]
  rw [read_int_cons, bind_ok_eq]
  simp only [intToUsize]
  rw [if_neg (by omega)]
  rfl

/-- Element payloads account for at least their 4-byte prefixes. -/
theorem catPayloads_mem_length (ps : List Bytes) (p : Bytes) (hp : p ∈ ps) :
    p.length + 4 ≤ (catPayloads ps).length := by
  induction ps with
  | nil => cases hp
  | cons q ps ih =>
    rcases List.mem_cons.mp hp with h | h
    · subst h
      simp only [catPayloads, List.map_cons, List.flatten_cons, List.length_append,
        wireBytes, int32be, List.length_cons]
      omega
    · have := ih h
      simp only [catPayloads, List.map_cons, List.flatten_cons, List.length_append] at this ⊢
      omega

/-- `catPayloads` unfolds one frame at a time. -/
theorem catPayloads_cons (p : Bytes) (ps : List Bytes) :
    catPayloads (p :: ps) = wireBytes p ++ catPayloads ps := rfl

/-- An erring step makes the whole `Except` chain err. -/
theorem isErr_bind {α β : Type} (x : Except ParseError α) (f : α → Except ParseError β)
    (h : isErr x = true) : isErr (Bind.bind x f) = true := by
  cases x with
  | error e => rfl
  | ok a => cases h

/-- `Except.map` on an ok value. -/
theorem except_map_ok {α β : Type} (f : α → β) (a : α) :
    Except.map f (Except.ok a : Except ParseError α) = .ok (f a) := rfl

/-- `Except.map` on an error value. -/
theorem except_map_error {α β : Type} (f : α → β) (e : ParseError) :
    Except.map f (Except.error e : Except ParseError α) = .error e := rfl

/-- The element loop of a Set decodes wire-framed payloads in order. -/
theorem loopElemsF_wire (t : ColumnType) (F : Nat) :
    ∀ (ps : List Bytes) (vs : List CQLValue),
      (∀ p ∈ ps, p.length < 2 ^ 31) →
      (∀ p ∈ ps, p.length < F) →
      ps.mapM (fun p => Except.map Prod.fst (deser_cql_value t p)) = .ok vs →
      loopElemsF (fun b => deser_cql_valueF F t b) ps.length (catPayloads ps) = .ok (vs, []) := by
  intro ps
  induction ps with
  | nil =>
    intro vs _ _ h
    simp only [List.mapM_nil, pure_eq_ok, Except.ok.injEq] at h
    subst h
    rfl
  | cons p ps ih =>
    intro vs hlen hF hmap
    rw [List.mapM_cons] at hmap
    cases hdv : deser_cql_value t p with
    | error e =>
      rw [hdv] at hmap
      simp only [except_map_error, bind_error_eq] at hmap
      cases hmap
    | ok pr =>
      obtain ⟨v, vrest⟩ := pr
      rw [hdv] at hmap
      simp only [except_map_ok, bind_ok_eq] at hmap
      cases hmm : List.mapM (fun p => Except.map Prod.fst (deser_cql_value t p)) ps with
      | error e => rw [hmm, bind_error_eq] at hmap; cases hmap
      | ok vs2 =>
        rw [hmm, bind_ok_eq] at hmap
        simp only [pure_eq_ok, Except.ok.injEq] at hmap
        subst hmap
        rw [catPayloads_cons]
        show loopElemsF _ (ps.length + 1) _ = _
        simp only [loopElemsF]
        rw [read_bytes_wire p (catPayloads ps) (hlen p (by simp))]
        simp only [bind_ok_eq]
        rw [deser_cql_valueF_irrel F (p.length + 1) t p (hF p (by simp)) (by omega)]
        rw [show deser_cql_valueF (p.length + 1) t p = deser_cql_value t p from rfl, hdv]
        simp only [bind_ok_eq]
        rw [ih vs2 (fun q hq => hlen q (by simp [hq])) (fun q hq => hF q (by simp [hq])) hmm]
        rfl

/-- C7: a Set element with a negative `[bytes]` length prefix (the NULL
sentinel) is a decode error — the source reads elements with `read_bytes` —
and when every element length is non-negative the decoded Set lists the
elements in wire order. -/
theorem c7_set_null_error_and_order :
    (∀ (t : ColumnType) (n : Nat) (b0 b1 b2 b3 : Nat) (rest : Bytes),
      0 < n → n < 2 ^ 31 →
      toSigned32 (beVal [b0, b1, b2, b3]) < 0 →
      deser_cql_value (ColumnType.Set t) (int32be n ++ b0 :: b1 :: b2 :: b3 :: rest)
        = .error (.BadData "out of range integral type conversion attempted")) ∧
    (∀ (t : ColumnType) (ps : List Bytes) (vs : List CQLValue),
      (∀ p ∈ ps, p.length < 2 ^ 31) → ps.length < 2 ^ 31 →
      ps.mapM (fun p => Except.map Prod.fst (deser_cql_value t p)) = .ok vs →
      deser_cql_value (ColumnType.Set t) (int32be ps.length ++ catPayloads ps)
        = .ok (.Set vs, [])) := by
  constructor
  · intro t n b0 b1 b2 b3 rest hn hn31 hneg
    show deser_cql_valueF (_ + 1) _ _ = _
    rw [deser_cql_valueF_set]
    rw [read_int_wire n (b0 :: b1 :: b2 :: b3 :: rest) hn31, bind_ok_eq]
    rw [show intToUsize ((n : Nat) : Int) = .ok n from by simp [intToUsize], bind_ok_eq]
    obtain ⟨m, rfl⟩ : ∃ m, n = m + 1 := ⟨n - 1, by omega⟩
    simp only [loopElemsF]
    rw [read_bytes_neg b0 b1 b2 b3 rest hneg]
    rfl
  · intro t ps vs hlen h31 hmap
    show deser_cql_valueF (_ + 1) _ _ = _
    rw [deser_cql_valueF_set]
    rw [read_int_wire ps.length (catPayloads ps) h31, bind_ok_eq]
    rw [show intToUsize ((ps.length : Nat) : Int) = .ok ps.length from by simp [intToUsize],
      bind_ok_eq]
    rw [loopElemsF_wire t _ ps vs hlen
      (fun p hp => by
        have h1 := catPayloads_mem_length ps p hp
        simp only [List.length_append, int32be, List.length_cons, List.length_nil]
        omega)
      hmap]
    rfl

/-- C7 witness: instances of both conjuncts (a NULL element under Set Int;
a two-element Set Int preserving wire order 7, 3). -/
theorem c7_set_null_error_and_order_witness :
    deser_cql_value (ColumnType.Set ColumnType.Int)
        (int32be 1 ++ 0xFF :: 0xFF :: 0xFF :: 0xFF :: [])
      = .error (.BadData "out of range integral type conversion attempted") ∧
    deser_cql_value (ColumnType.Set ColumnType.Int)
        (int32be 2 ++ catPayloads [[0x00, 0x00, 0x00, 0x07], [0x00, 0x00, 0x00, 0x03]])
      = .ok (.Set [CQLValue.Int 7, CQLValue.Int 3], []) :=
  ⟨c7_set_null_error_and_order.1 ColumnType.Int 1 0xFF 0xFF 0xFF 0xFF [] (by decide)
      (by decide) (by decide),
   c7_set_null_error_and_order.2 ColumnType.Int
      [[0x00, 0x00, 0x00, 0x07], [0x00, 0x00, 0x00, 0x03]]
      [CQLValue.Int 7, CQLValue.Int 3] (by decide) (by decide) rfl⟩

/-- A Tuple body with fewer wire-framed payloads than declared element types
makes the element loop fail. -/
theorem loopTupleF_short (dec : ColumnType → Bytes → Except ParseError (CQLValue × Bytes)) :
    ∀ (ps : List Bytes) (ts : List ColumnType),
      ps.length < ts.length → (∀ p ∈ ps, p.length < 2 ^ 31) →
      isErr (loopTupleF dec ts (catPayloads ps)) = true := by
  intro ps
  induction ps with
  | nil =>
    intro ts h _
    cases ts with
    | nil => simp at h
    | cons t ts =>
      simp only [loopTupleF]
      refine isErr_bind _ _ ?_
      rfl
  | cons p ps ih =>
    intro ts h hlen
    cases ts with
    | nil => simp at h
    | cons t ts =>
      rw [catPayloads_cons]
      simp only [loopTupleF]
      rw [read_bytes_wire p (catPayloads ps) (hlen p (by simp))]
      simp only [bind_ok_eq]
      cases hdv : dec t p with
      | error e => rfl
      | ok pr =>
        obtain ⟨v, vrest⟩ := pr
        simp only [bind_ok_eq]
        refine isErr_bind _ _ ?_
        exact ih ts (by simpa using h) (fun q hq => hlen q (by simp [hq]))

/-- C3 (amended): a Tuple decodes to a positional sequence of non-optional
element values; an element whose `[bytes]` length prefix is negative is a
decode error, and a Tuple body with fewer element payloads than declared
types is a decode error. -/
theorem c3_tuple_strict :
    (∀ (t : ColumnType) (ts : List ColumnType) (b0 b1 b2 b3 : Nat) (rest : Bytes),
      toSigned32 (beVal [b0, b1, b2, b3]) < 0 →
      deser_cql_value (ColumnType.Tuple (t :: ts)) (b0 :: b1 :: b2 :: b3 :: rest)
        = .error (.BadData "out of range integral type conversion attempted")) ∧
    (∀ (ts : List ColumnType) (ps : List Bytes),
      ps.length < ts.length → (∀ p ∈ ps, p.length < 2 ^ 31) →
      isErr (deser_cql_value (ColumnType.Tuple ts) (catPayloads ps)) = true) := by
  constructor
  · intro t ts b0 b1 b2 b3 rest hneg
    show deser_cql_valueF (_ + 1) _ _ = _
    rw [deser_cql_valueF_tuple]
    simp only [loopTupleF]
    rw [read_bytes_neg b0 b1 b2 b3 rest hneg]
    rfl
  · intro ts ps h hlen
    show isErr (deser_cql_valueF (_ + 1) _ _) = true
    rw [deser_cql_valueF_tuple]
    exact isErr_bind _ _ (loopTupleF_short _ ps ts h hlen)

/-- C3 witness: instances of both amended conjuncts. -/
theorem c3_tuple_strict_witness :
    deser_cql_value (ColumnType.Tuple [ColumnType.Int, ColumnType.Int])
        (0xFF :: 0xFF :: 0xFF :: 0xFF :: [])
      = .error (.BadData "out of range integral type conversion attempted") ∧
    isErr (deser_cql_value (ColumnType.Tuple [ColumnType.Int, ColumnType.Int])
        (catPayloads [[0x00, 0x00, 0x00, 0x07]])) = true :=
  ⟨c3_tuple_strict.1 ColumnType.Int [ColumnType.Int] 0xFF 0xFF 0xFF 0xFF [] (by decide),
   c3_tuple_strict.2 [ColumnType.Int, ColumnType.Int] [[0x00, 0x00, 0x00, 0x07]]
      (by decide) (by decide)⟩



/-- A successful `read_short` consumes exactly 2 bytes. -/
theorem read_short_consume (buf : Bytes) (s : Nat) (rest : Bytes)
    (h : read_short buf = .ok (s, rest)) : rest.length + 2 = buf.length := by
  simp only [read_short] at h
  cases ht : takeN 2 buf with
  | error e => rw [ht, bind_error_eq] at h; cases h
  | ok pr =>
    obtain ⟨bs, rest'⟩ := pr
    rw [ht, bind_ok_eq] at h
    simp only [Except.ok.injEq, Prod.mk.injEq] at h
    obtain ⟨-, h2⟩ := h
    subst h2
    exact (takeN_spec 2 buf bs rest' ht).2

/-- A successful `read_string` consumes at least its 2-byte length prefix. -/
theorem read_string_consume (buf : Bytes) (s rest : Bytes)
    (h : read_string buf = .ok (s, rest)) : rest.length + 2 ≤ buf.length := by
  simp only [read_string] at h
  cases hrs : read_short buf with
  | error e => rw [hrs, bind_error_eq] at h; cases h
  | ok pr =>
    obtain ⟨n, buf1⟩ := pr
    rw [hrs, bind_ok_eq] at h
    have h2 := read_short_consume buf n buf1 hrs
    cases ht : takeN n buf1 with
    | error e => rw [ht, bind_error_eq] at h; cases h
    | ok pr1 =>
      obtain ⟨s', rest'⟩ := pr1
      rw [ht, bind_ok_eq] at h
      have hts := takeN_spec n buf1 s' rest' ht
      by_cases hv : utf8Valid s' = true
      · rw [if_pos hv] at h
        simp only [Except.ok.injEq, Prod.mk.injEq] at h
        obtain ⟨-, hr⟩ := h
        subst hr
        omega
      · rw [if_neg hv] at h; cases h

/-- The UDT field-type loop only consumes input, given that `dt` does. -/
theorem deser_udt_field_typesF_consume
    (dt : Bytes → Except ParseError (ColumnType × Bytes))
    (hdt : ∀ (b : Bytes) (t : ColumnType) (r : Bytes), dt b = .ok (t, r) → r.length ≤ b.length) :
    ∀ (n : Nat) (buf : Bytes) (fts : List (RStr × ColumnType)) (rest : Bytes),
      deser_udt_field_typesF dt n buf = .ok (fts, rest) → rest.length ≤ buf.length := by
  intro n
  induction n with
  | zero =>
    intro buf fts rest h
    simp only [deser_udt_field_typesF, Except.ok.injEq, Prod.mk.injEq] at h
    obtain ⟨-, hr⟩ := h
    subst hr
    exact le_refl _
  | succ n ih =>
    intro buf fts rest h
    simp only [deser_udt_field_typesF] at h
    cases hrs : read_string buf with
    | error e => rw [hrs, bind_error_eq] at h; cases h
    | ok pr =>
      obtain ⟨fn, b1⟩ := pr
      rw [hrs, bind_ok_eq] at h
      have hc1 := read_string_consume buf fn b1 hrs
      cases hdt1 : dt b1 with
      | error e => rw [hdt1, bind_error_eq] at h; cases h
      | ok pr1 =>
        obtain ⟨ft, b2⟩ := pr1
        rw [hdt1, bind_ok_eq] at h
        have hc2 := hdt b1 ft b2 hdt1
        cases hloop : deser_udt_field_typesF dt n b2 with
        | error e => rw [hloop, bind_error_eq] at h; cases h
        | ok pr2 =>
          obtain ⟨fts2, b3⟩ := pr2
          rw [hloop, bind_ok_eq] at h
          simp only [Except.ok.injEq, Prod.mk.injEq] at h
          obtain ⟨-, hr⟩ := h
          subst hr
          have hc3 := ih b2 fts2 b3 hloop
          omega

/-- The Tuple type-list loop only consumes input, given that `dt` does. -/
theorem deser_type_listF_consume
    (dt : Bytes → Except ParseError (ColumnType × Bytes))
    (hdt : ∀ (b : Bytes) (t : ColumnType) (r : Bytes), dt b = .ok (t, r) → r.length ≤ b.length) :
    ∀ (n : Nat) (buf : Bytes) (ts : List ColumnType) (rest : Bytes),
      deser_type_listF dt n buf = .ok (ts, rest) → rest.length ≤ buf.length := by
  intro n
  induction n with
  | zero =>
    intro buf ts rest h
    simp only [deser_type_listF, Except.ok.injEq, Prod.mk.injEq] at h
    obtain ⟨-, hr⟩ := h
    subst hr
    exact le_refl _
  | succ n ih =>
    intro buf ts rest h
    simp only [deser_type_listF] at h
    cases hdt1 : dt buf with
    | error e => rw [hdt1, bind_error_eq] at h; cases h
    | ok pr1 =>
      obtain ⟨t, b1⟩ := pr1
      rw [hdt1, bind_ok_eq] at h
      have hc1 := hdt buf t b1 hdt1
      cases hloop : deser_type_listF dt n b1 with
      | error e => rw [hloop, bind_error_eq] at h; cases h
      | ok pr2 =>
        obtain ⟨ts2, b2⟩ := pr2
        rw [hloop, bind_ok_eq] at h
        simp only [Except.ok.injEq, Prod.mk.injEq] at h
        obtain ⟨-, hr⟩ := h
        subst hr
        have hc2 := ih b1 ts2 b2 hloop
        omega

set_option maxHeartbeats 4000000 in
/-- `deser_typeF` only consumes input. -/
theorem deser_typeF_consume :
    ∀ (fuel : Nat) (buf : Bytes) (t : ColumnType) (rest : Bytes),
      deser_typeF fuel buf = .ok (t, rest) → rest.length ≤ buf.length := by
  intro fuel
  induction fuel with
  | zero => intro buf t rest h; cases h
  | succ fuel ih =>
    intro buf t rest h
    unfold deser_typeF at h
    cases hrs : read_short buf with
    | error e => rw [hrs, bind_error_eq] at h; cases h
    | ok pr =>
      obtain ⟨id, buf1⟩ := pr
      rw [hrs] at h
      simp only [bind_ok_eq] at h
      have hb1 := read_short_consume buf id buf1 hrs
      have hsimple : ∀ t0 : ColumnType,
          (Except.ok (t0, buf1) : Except ParseError (ColumnType × Bytes)) = .ok (t, rest) →
          rest.length ≤ buf.length := by
        intro t0 hh
        simp only [Except.ok.injEq, Prod.mk.injEq] at hh
        obtain ⟨-, hr⟩ := hh
        subst hr
        omega
      by_cases e1 : id = 1
      · rw [if_pos e1] at h
        exact hsimple _ h
      rw [if_neg e1] at h
      by_cases e2 : id = 2
      · rw [if_pos e2] at h
        exact hsimple _ h
      rw [if_neg e2] at h
      by_cases e3 : id = 4
      · rw [if_pos e3] at h
        exact hsimple _ h
      rw [if_neg e3] at h
      by_cases e4 : id = 5
      · rw [if_pos e4] at h
        exact hsimple _ h
      rw [if_neg e4] at h
      by_cases e5 : id = 9
      · rw [if_pos e5] at h
        exact hsimple _ h
      rw [if_neg e5] at h
      by_cases e6 : id = 11
      · rw [if_pos e6] at h
        exact hsimple _ h
      rw [if_neg e6] at h
      by_cases e7 : id = 13
      · rw [if_pos e7] at h
        exact hsimple _ h
      rw [if_neg e7] at h
      by_cases e8 : id = 16
      · rw [if_pos e8] at h
        exact hsimple _ h
      rw [if_neg e8] at h
      by_cases e9 : id = 17
      · rw [if_pos e9] at h
        exact hsimple _ h
      rw [if_neg e9] at h
      by_cases e10 : id = 18
      · rw [if_pos e10] at h
        exact hsimple _ h
      rw [if_neg e10] at h
      by_cases e11 : id = 19
      · rw [if_pos e11] at h
        exact hsimple _ h
      rw [if_neg e11] at h
      by_cases e12 : id = 20
      · rw [if_pos e12] at h
        exact hsimple _ h
      rw [if_neg e12] at h
      by_cases e13 : id = 32
      · rw [if_pos e13] at h
        -- List
        cases hin : deser_typeF fuel buf1 with
        | error e => rw [hin, bind_error_eq] at h; cases h
        | ok pr1 =>
          obtain ⟨t0, b2⟩ := pr1
          rw [hin, bind_ok_eq] at h
          simp only [Except.ok.injEq, Prod.mk.injEq] at h
          obtain ⟨-, hr⟩ := h
          subst hr
          have := ih buf1 t0 b2 hin
          omega
      rw [if_neg e13] at h
      by_cases e14 : id = 33
      · rw [if_pos e14] at h
        -- Map
        cases hin : deser_typeF fuel buf1 with
        | error e => rw [hin, bind_error_eq] at h; cases h
        | ok pr1 =>
          obtain ⟨k, b2⟩ := pr1
          rw [hin, bind_ok_eq] at h
          have hk := ih buf1 k b2 hin
          cases hin2 : deser_typeF fuel b2 with
          | error e => rw [hin2, bind_error_eq] at h; cases h
          | ok pr2 =>
            obtain ⟨v, b3⟩ := pr2
            rw [hin2, bind_ok_eq] at h
            simp only [Except.ok.injEq, Prod.mk.injEq] at h
            obtain ⟨-, hr⟩ := h
            subst hr
            have hv := ih b2 v b3 hin2
            omega
      rw [if_neg e14] at h
      by_cases e15 : id = 34
      · rw [if_pos e15] at h
        -- Set
        cases hin : deser_typeF fuel buf1 with
        | error e => rw [hin, bind_error_eq] at h; cases h
        | ok pr1 =>
          obtain ⟨t0, b2⟩ := pr1
          rw [hin, bind_ok_eq] at h
          simp only [Except.ok.injEq, Prod.mk.injEq] at h
          obtain ⟨-, hr⟩ := h
          subst hr
          have := ih buf1 t0 b2 hin
          omega
      rw [if_neg e15] at h
      by_cases e16 : id = 48
      · rw [if_pos e16] at h
        -- UserDefinedType
        cases hks : read_string buf1 with
        | error e => rw [hks, bind_error_eq] at h; cases h
        | ok prks =>
          obtain ⟨ksn, b2⟩ := prks
          rw [hks, bind_ok_eq] at h
          have hc2 := read_string_consume buf1 ksn b2 hks
          cases htn : read_string b2 with
          | error e => rw [htn, bind_error_eq] at h; cases h
          | ok prtn =>
            obtain ⟨tnn, b3⟩ := prtn
            rw [htn, bind_ok_eq] at h
            have hc3 := read_string_consume b2 tnn b3 htn
            cases hfs : read_short b3 with
            | error e => rw [hfs, bind_error_eq] at h; cases h
            | ok prfs =>
              obtain ⟨fsz, b4⟩ := prfs
              rw [hfs, bind_ok_eq] at h
              have hc4 := read_short_consume b3 fsz b4 hfs
              cases hloop : deser_udt_field_typesF (fun b => deser_typeF fuel b) fsz b4 with
              | error e => rw [hloop, bind_error_eq] at h; cases h
              | ok prl =>
                obtain ⟨fts, b5⟩ := prl
                rw [hloop, bind_ok_eq] at h
                simp only [Except.ok.injEq, Prod.mk.injEq] at h
                obtain ⟨-, hr⟩ := h
                subst hr
                have hc5 := deser_udt_field_typesF_consume (fun b => deser_typeF fuel b)
                  (fun b t0 r hh => ih b t0 r hh) fsz b4 fts b5 hloop
                omega
      rw [if_neg e16] at h
      by_cases e17 : id = 49
      · rw [if_pos e17] at h
        -- Tuple
        cases hfs : read_short buf1 with
        | error e => rw [hfs, bind_error_eq] at h; cases h
        | ok prfs =>
          obtain ⟨len, b2⟩ := prfs
          rw [hfs, bind_ok_eq] at h
          have hc2 := read_short_consume buf1 len b2 hfs
          cases hloop : deser_type_listF (fun b => deser_typeF fuel b) len b2 with
          | error e => rw [hloop, bind_error_eq] at h; cases h
          | ok prl =>
            obtain ⟨ts, b3⟩ := prl
            rw [hloop, bind_ok_eq] at h
            simp only [Except.ok.injEq, Prod.mk.injEq] at h
            obtain ⟨-, hr⟩ := h
            subst hr
            have hc3 := deser_type_listF_consume (fun b => deser_typeF fuel b)
              (fun b t0 r hh => ih b t0 r hh) len b2 ts b3 hloop
            omega
      rw [if_neg e17] at h
      cases h



/-- Fuel-independence of the UDT field-type loop, given agreement and
consumption of the type parser on small enough buffers. -/
theorem deser_udt_field_typesF_congr
    (dt1 dt2 : Bytes → Except ParseError (ColumnType × Bytes)) (B : Nat)
    (hc : ∀ (b : Bytes) (t : ColumnType) (r : Bytes), dt1 b = .ok (t, r) → r.length ≤ b.length)
    (hd : ∀ b : Bytes, b.length ≤ B → dt1 b = dt2 b) :
    ∀ (n : Nat) (buf : Bytes), buf.length ≤ B →
      deser_udt_field_typesF dt1 n buf = deser_udt_field_typesF dt2 n buf := by
  intro n
  induction n with
  | zero => intro buf _; rfl
  | succ n ih =>
    intro buf hB
    simp only [deser_udt_field_typesF]
    cases hrs : read_string buf with
    | error e => rfl
    | ok pr =>
      obtain ⟨fn, b1⟩ := pr
      have hc1 := read_string_consume buf fn b1 hrs
      simp only [bind_ok_eq]
      rw [hd b1 (by omega)]
      cases hdt : dt2 b1 with
      | error e => rfl
      | ok pr1 =>
        obtain ⟨ft, b2⟩ := pr1
        simp only [bind_ok_eq]
        have hc2 : b2.length ≤ b1.length := hc b1 ft b2 (by rw [hd b1 (by omega)]; exact hdt)
        rw [ih b2 (by omega)]

/-- Fuel-independence of the Tuple type-list loop. -/
theorem deser_type_listF_congr
    (dt1 dt2 : Bytes → Except ParseError (ColumnType × Bytes)) (B : Nat)
    (hc : ∀ (b : Bytes) (t : ColumnType) (r : Bytes), dt1 b = .ok (t, r) → r.length ≤ b.length)
    (hd : ∀ b : Bytes, b.length ≤ B → dt1 b = dt2 b) :
    ∀ (n : Nat) (buf : Bytes), buf.length ≤ B →
      deser_type_listF dt1 n buf = deser_type_listF dt2 n buf := by
  intro n
  induction n with
  | zero => intro buf _; rfl
  | succ n ih =>
    intro buf hB
    simp only [deser_type_listF]
    rw [hd buf hB]
    cases hdt : dt2 buf with
    | error e => rfl
    | ok pr1 =>
      obtain ⟨t, b1⟩ := pr1
      simp only [bind_ok_eq]
      have hc1 : b1.length ≤ buf.length := hc buf t b1 (by rw [hd buf hB]; exact hdt)
      rw [ih b1 (by omega)]

set_option maxHeartbeats 4000000 in
/-- `deser_typeF` does not depend on the fuel, as long as the fuel exceeds
the cursor length (each recursive descent first consumes the 2 tag bytes). -/
theorem deser_typeF_irrel :
    ∀ (f g : Nat) (buf : Bytes), buf.length < f → buf.length < g →
      deser_typeF f buf = deser_typeF g buf := by
  intro f
  induction f with
  | zero => intro g buf hf; exact absurd hf (Nat.not_lt_zero _)
  | succ f ih =>
    intro g buf hf hg
    cases g with
    | zero => exact absurd hg (Nat.not_lt_zero _)
    | succ g =>
      unfold deser_typeF
      cases hrs : read_short buf with
      | error e => rfl
      | ok pr =>
        obtain ⟨id, buf1⟩ := pr
        have hb1 := read_short_consume buf id buf1 hrs
        simp only [bind_ok_eq]
        by_cases e1 : id = 1
        · rw [if_pos e1, if_pos e1]
        rw [if_neg e1, if_neg e1]
        by_cases e2 : id = 2
        · rw [if_pos e2, if_pos e2]
        rw [if_neg e2, if_neg e2]
        by_cases e3 : id = 4
        · rw [if_pos e3, if_pos e3]
        rw [if_neg e3, if_neg e3]
        by_cases e4 : id = 5
        · rw [if_pos e4, if_pos e4]
        rw [if_neg e4, if_neg e4]
        by_cases e5 : id = 9
        · rw [if_pos e5, if_pos e5]
        rw [if_neg e5, if_neg e5]
        by_cases e6 : id = 11
        · rw [if_pos e6, if_pos e6]
        rw [if_neg e6, if_neg e6]
        by_cases e7 : id = 13
        · rw [if_pos e7, if_pos e7]
        rw [if_neg e7, if_neg e7]
        by_cases e8 : id = 16
        · rw [if_pos e8, if_pos e8]
        rw [if_neg e8, if_neg e8]
        by_cases e9 : id = 17
        · rw [if_pos e9, if_pos e9]
        rw [if_neg e9, if_neg e9]
        by_cases e10 : id = 18
        · rw [if_pos e10, if_pos e10]
        rw [if_neg e10, if_neg e10]
        by_cases e11 : id = 19
        · rw [if_pos e11, if_pos e11]
        rw [if_neg e11, if_neg e11]
        by_cases e12 : id = 20
        · rw [if_pos e12, if_pos e12]
        rw [if_neg e12, if_neg e12]
        by_cases e13 : id = 32
        · rw [if_pos e13, if_pos e13]
          rw [ih g buf1 (by omega) (by omega)]
        rw [if_neg e13, if_neg e13]
        by_cases e14 : id = 33
        · rw [if_pos e14, if_pos e14]
          rw [ih g buf1 (by omega) (by omega)]
          cases hk : deser_typeF g buf1 with
          | error e => rfl
          | ok prk =>
            obtain ⟨k, b2⟩ := prk
            simp only [bind_ok_eq]
            have hcb2 : b2.length ≤ buf1.length := deser_typeF_consume g buf1 k b2 hk
            rw [ih g b2 (by omega) (by omega)]
        rw [if_neg e14, if_neg e14]
        by_cases e15 : id = 34
        · rw [if_pos e15, if_pos e15]
          rw [ih g buf1 (by omega) (by omega)]
        rw [if_neg e15, if_neg e15]
        by_cases e16 : id = 48
        · rw [if_pos e16, if_pos e16]
          cases hks : read_string buf1 with
          | error e => rfl
          | ok prks =>
            obtain ⟨ksn, b2⟩ := prks
            have hc2 := read_string_consume buf1 ksn b2 hks
            simp only [bind_ok_eq]
            cases htn : read_string b2 with
            | error e => rfl
            | ok prtn =>
              obtain ⟨tnn, b3⟩ := prtn
              have hc3 := read_string_consume b2 tnn b3 htn
              simp only [bind_ok_eq]
              cases hfs : read_short b3 with
              | error e => rfl
              | ok prfs =>
                obtain ⟨fsz, b4⟩ := prfs
                have hc4 := read_short_consume b3 fsz b4 hfs
                simp only [bind_ok_eq]
                rw [deser_udt_field_typesF_congr (fun b => deser_typeF f b) (fun b => deser_typeF g b)
                  b4.length (fun b t r hh => deser_typeF_consume f b t r hh)
                  (fun b hb => ih g b (by omega) (by omega)) fsz b4 (le_refl _)]
        rw [if_neg e16, if_neg e16]
        by_cases e17 : id = 49
        · rw [if_pos e17, if_pos e17]
          cases hfs : read_short buf1 with
          | error e => rfl
          | ok prfs =>
            obtain ⟨len, b2⟩ := prfs
            have hc2 := read_short_consume buf1 len b2 hfs
            simp only [bind_ok_eq]
            rw [deser_type_listF_congr (fun b => deser_typeF f b) (fun b => deser_typeF g b)
              b2.length (fun b t r hh => deser_typeF_consume f b t r hh)
              (fun b hb => ih g b (by omega) (by omega)) len b2 (le_refl _)]
        rw [if_neg e17, if_neg e17]



/-- The set of wire tags `deser_type` implements. -/
def implementedTags : List Nat :=
  [0x0001, 0x0002, 0x0004, 0x0005, 0x0009, 0x000B, 0x000D, 0x0010, 0x0011, 0x0012,
   0x0013, 0x0014, 0x0020, 0x0021, 0x0022, 0x0030, 0x0031]

/-- `read_short` on an explicitly 2-byte-headed cursor. -/
theorem read_short_cons (b0 b1 : Nat) (rest : Bytes) :
    read_short (b0 :: b1 :: rest) = .ok (beVal [b0, b1], rest) := by
  simp only [read_short]
  rw [show takeN 2 (b0 :: b1 :: rest) = .ok ([b0, b1], rest) from by
    show takeN [b0, b1].length ([b0, b1] ++ rest) = _
    exact takeN_left _ _]
  rw [bind_ok_eq]

/-- The big-endian value of a 2-byte sequence. -/
theorem beVal_pair (a b : Nat) : beVal [a, b] = a * 256 + b := by
  simp [beVal, List.foldl]

/-- `read_string` consumes exactly one wire-framed string. -/
theorem read_string_wire (s : RStr) (rest : Bytes) (hs : utf8Valid s = true)
    (hlen : s.length < 2 ^ 16) :
    read_string (write_string s ++ rest) = .ok (s, rest) := by
  simp only [read_string, write_string, short16be, List.cons_append, List.nil_append,
    List.append_assoc]
  rw [read_short_cons, bind_ok_eq]
  rw [show beVal [s.length / 256 % 256, s.length % 256] = s.length from by
    rw [beVal_pair]; omega]
  rw [takeN_left s rest, bind_ok_eq, if_pos hs]


/-- C6: the column-type parser rejects every readable tag outside the
implemented set with `TypeNotImplemented` carrying that tag, and succeeds
with the corresponding variant for every tag inside the set given
well-formed payloads: unconditionally for the twelve payload-free tags, and
compositionally for List/Map/Set (from successful inner parses) and for
UserDefinedType/Tuple (zero- and one-field bodies with well-formed wire
strings). -/
theorem c6_type_tags :
    (∀ (b0 b1 : Nat) (rest : Bytes), b0 < 256 → b1 < 256 →
      (b0 * 256 + b1) ∉ implementedTags →
      deser_type (b0 :: b1 :: rest) = .error (.TypeNotImplemented (b0 * 256 + b1))) ∧
    (∀ rest : Bytes,
      deser_type (0x00 :: 0x01 :: rest) = .ok (.Ascii, rest) ∧
      deser_type (0x00 :: 0x02 :: rest) = .ok (.BigInt, rest) ∧
      deser_type (0x00 :: 0x04 :: rest) = .ok (.Boolean, rest) ∧
      deser_type (0x00 :: 0x05 :: rest) = .ok (.Counter, rest) ∧
      deser_type (0x00 :: 0x09 :: rest) = .ok (.Int, rest) ∧
      deser_type (0x00 :: 0x0B :: rest) = .ok (.Timestamp, rest) ∧
      deser_type (0x00 :: 0x0D :: rest) = .ok (.Text, rest) ∧
      deser_type (0x00 :: 0x10 :: rest) = .ok (.Inet, rest) ∧
      deser_type (0x00 :: 0x11 :: rest) = .ok (.Date, rest) ∧
      deser_type (0x00 :: 0x12 :: rest) = .ok (.Time, rest) ∧
      deser_type (0x00 :: 0x13 :: rest) = .ok (.SmallInt, rest) ∧
      deser_type (0x00 :: 0x14 :: rest) = .ok (.TinyInt, rest)) ∧
    (∀ (inner rest : Bytes) (t : ColumnType),
      deser_type inner = .ok (t, rest) →
      deser_type (0x00 :: 0x20 :: inner) = .ok (.List t, rest) ∧
      deser_type (0x00 :: 0x22 :: inner) = .ok (.Set t, rest)) ∧
    (∀ (inner r1 r2 : Bytes) (k v : ColumnType),
      deser_type inner = .ok (k, r1) → deser_type r1 = .ok (v, r2) →
      deser_type (0x00 :: 0x21 :: inner) = .ok (.Map k v, r2)) ∧
    (∀ (ks tn : RStr) (rest : Bytes),
      utf8Valid ks = true → ks.length < 2 ^ 16 →
      utf8Valid tn = true → tn.length < 2 ^ 16 →
      deser_type (0x00 :: 0x30 :: (write_string ks ++ (write_string tn ++ (0x00 :: 0x00 :: rest))))
        = .ok (.UserDefinedType tn ks [], rest)) ∧
    (∀ (ks tn fn : RStr) (inner rest : Bytes) (ft : ColumnType),
      utf8Valid ks = true → ks.length < 2 ^ 16 →
      utf8Valid tn = true → tn.length < 2 ^ 16 →
      utf8Valid fn = true → fn.length < 2 ^ 16 →
      deser_type inner = .ok (ft, rest) →
      deser_type (0x00 :: 0x30 :: (write_string ks ++ (write_string tn
          ++ (0x00 :: 0x01 :: (write_string fn ++ inner)))))
        = .ok (.UserDefinedType tn ks [(fn, ft)], rest)) ∧
    (∀ rest : Bytes,
      deser_type (0x00 :: 0x31 :: 0x00 :: 0x00 :: rest) = .ok (.Tuple [], rest)) ∧
    (∀ (inner rest : Bytes) (t : ColumnType),
      deser_type inner = .ok (t, rest) →
      deser_type (0x00 :: 0x31 :: 0x00 :: 0x01 :: inner) = .ok (.Tuple [t], rest)) := by
  refine ⟨?_, ?_, ?_, ?_, ?_, ?_, ?_, ?_⟩
  · -- unknown tag
    intro b0 b1 rest hb0 hb1 hmem
    show deser_typeF ((b0 :: b1 :: rest).length + 1) _ = _
    unfold deser_typeF
    rw [read_short_cons]
    simp only [bind_ok_eq]
    rw [beVal_pair]
    simp only [implementedTags, List.mem_cons, List.not_mem_nil, or_false] at hmem
    push_neg at hmem
    obtain ⟨h1, h2, h3, h4, h5, h6, h7, h8, h9, h10, h11, h12, h13, h14, h15, h16, h17⟩ := hmem
    rw [if_neg h1, if_neg h2, if_neg h3, if_neg h4, if_neg h5, if_neg h6, if_neg h7,
      if_neg h8, if_neg h9, if_neg h10, if_neg h11, if_neg h12, if_neg h13, if_neg h14,
      if_neg h15, if_neg h16, if_neg h17]
  · -- the twelve payload-free tags
    intro rest
    refine ⟨?_, ?_, ?_, ?_, ?_, ?_, ?_, ?_, ?_, ?_, ?_, ?_⟩ <;>
      · show deser_typeF (_ + 1) _ = _
        unfold deser_typeF
        rw [read_short_cons]
        simp only [bind_ok_eq]
        norm_num [beVal, List.foldl]
  · -- List and Set
    intro inner rest t hin
    have hin1 : deser_typeF (inner.length + 1) inner = .ok (t, rest) := hin
    constructor
    · show deser_typeF ((0x00 :: 0x20 :: inner).length + 1) _ = _
      unfold deser_typeF
      rw [read_short_cons]
      simp only [bind_ok_eq]
      rw [if_neg (by decide), if_neg (by decide), if_neg (by decide), if_neg (by decide),
        if_neg (by decide), if_neg (by decide), if_neg (by decide), if_neg (by decide),
        if_neg (by decide), if_neg (by decide), if_neg (by decide), if_neg (by decide),
        if_pos (by decide)]
      rw [deser_typeF_irrel (0x00 :: 0x20 :: inner).length (inner.length + 1) inner
        (by simp only [List.length_cons]; omega) (by omega)]
      rw [hin1]
      rfl
    · show deser_typeF ((0x00 :: 0x22 :: inner).length + 1) _ = _
      unfold deser_typeF
      rw [read_short_cons]
      simp only [bind_ok_eq]
      rw [if_neg (by decide), if_neg (by decide), if_neg (by decide), if_neg (by decide),
        if_neg (by decide), if_neg (by decide), if_neg (by decide), if_neg (by decide),
        if_neg (by decide), if_neg (by decide), if_neg (by decide), if_neg (by decide),
        if_neg (by decide), if_neg (by decide), if_pos (by decide)]
      rw [deser_typeF_irrel (0x00 :: 0x22 :: inner).length (inner.length + 1) inner
        (by simp only [List.length_cons]; omega) (by omega)]
      rw [hin1]
      rfl
  · -- Map
    intro inner r1 r2 k v hk hv
    have hk1 : deser_typeF (inner.length + 1) inner = .ok (k, r1) := hk
    have hv1 : deser_typeF (r1.length + 1) r1 = .ok (v, r2) := hv
    have hc : r1.length ≤ inner.length :=
      deser_typeF_consume (inner.length + 1) inner k r1 hk1
    show deser_typeF ((0x00 :: 0x21 :: inner).length + 1) _ = _
    unfold deser_typeF
    rw [read_short_cons]
    simp only [bind_ok_eq]
    rw [if_neg (by decide), if_neg (by decide), if_neg (by decide), if_neg (by decide),
      if_neg (by decide), if_neg (by decide), if_neg (by decide), if_neg (by decide),
      if_neg (by decide), if_neg (by decide), if_neg (by decide), if_neg (by decide),
      if_neg (by decide), if_pos (by decide)]
    rw [deser_typeF_irrel (0x00 :: 0x21 :: inner).length (inner.length + 1) inner
      (by simp only [List.length_cons]; omega) (by omega)]
    rw [hk1]
    simp only [bind_ok_eq]
    rw [deser_typeF_irrel (0x00 :: 0x21 :: inner).length (r1.length + 1) r1
      (by simp only [List.length_cons]; omega) (by omega)]
    rw [hv1]
    rfl
  · -- UserDefinedType, zero fields
    intro ks tn rest hks hkl htn htl
    show deser_typeF ((0x00 :: 0x30 :: _).length + 1) _ = _
    unfold deser_typeF
    rw [read_short_cons]
    simp only [bind_ok_eq]
    rw [if_neg (by decide), if_neg (by decide), if_neg (by decide), if_neg (by decide),
      if_neg (by decide), if_neg (by decide), if_neg (by decide), if_neg (by decide),
      if_neg (by decide), if_neg (by decide), if_neg (by decide), if_neg (by decide),
      if_neg (by decide), if_neg (by decide), if_neg (by decide), if_pos (by decide)]
    rw [read_string_wire ks _ hks hkl]
    simp only [bind_ok_eq]
    rw [read_string_wire tn _ htn htl]
    simp only [bind_ok_eq]
    rw [read_short_cons]
    simp only [bind_ok_eq]
    rw [show beVal [0x00, 0x00] = 0 from by decide]
    rfl
  · -- UserDefinedType, one field
    intro ks tn fn inner rest ft hks hkl htn htl hfn hfl hin
    have hin1 : deser_typeF (inner.length + 1) inner = .ok (ft, rest) := hin
    show deser_typeF ((0x00 :: 0x30 :: _).length + 1) _ = _
    unfold deser_typeF
    rw [read_short_cons]
    simp only [bind_ok_eq]
    rw [if_neg (by decide), if_neg (by decide), if_neg (by decide), if_neg (by decide),
      if_neg (by decide), if_neg (by decide), if_neg (by decide), if_neg (by decide),
      if_neg (by decide), if_neg (by decide), if_neg (by decide), if_neg (by decide),
      if_neg (by decide), if_neg (by decide), if_neg (by decide), if_pos (by decide)]
    rw [read_string_wire ks _ hks hkl]
    simp only [bind_ok_eq]
    rw [read_string_wire tn _ htn htl]
    simp only [bind_ok_eq]
    rw [read_short_cons]
    simp only [bind_ok_eq]
    rw [show beVal [0x00, 0x01] = 1 from by decide]
    simp only [deser_udt_field_typesF]
    rw [read_string_wire fn _ hfn hfl]
    simp only [bind_ok_eq]
    rw [deser_typeF_irrel (0x00 :: 0x30 :: (write_string ks ++ (write_string tn
        ++ (0x00 :: 0x01 :: (write_string fn ++ inner))))).length (inner.length + 1) inner
      (by simp only [List.length_cons, List.length_append, write_string, short16be,
        List.length_nil]; omega) (by omega)]
    rw [hin1]
    rfl
  · -- Tuple, zero elements
    intro rest
    show deser_typeF ((0x00 :: 0x31 :: 0x00 :: 0x00 :: rest).length + 1) _ = _
    unfold deser_typeF
    rw [read_short_cons]
    simp only [bind_ok_eq]
    rw [if_neg (by decide), if_neg (by decide), if_neg (by decide), if_neg (by decide),
      if_neg (by decide), if_neg (by decide), if_neg (by decide), if_neg (by decide),
      if_neg (by decide), if_neg (by decide), if_neg (by decide), if_neg (by decide),
      if_neg (by decide), if_neg (by decide), if_neg (by decide), if_neg (by decide),
      if_pos (by decide)]
    rw [read_short_cons]
    simp only [bind_ok_eq]
    rw [show beVal [0x00, 0x00] = 0 from by decide]
    rfl
  · -- Tuple, one element
    intro inner rest t hin
    have hin1 : deser_typeF (inner.length + 1) inner = .ok (t, rest) := hin
    show deser_typeF ((0x00 :: 0x31 :: 0x00 :: 0x01 :: inner).length + 1) _ = _
    unfold deser_typeF
    rw [read_short_cons]
    simp only [bind_ok_eq]
    rw [if_neg (by decide), if_neg (by decide), if_neg (by decide), if_neg (by decide),
      if_neg (by decide), if_neg (by decide), if_neg (by decide), if_neg (by decide),
      if_neg (by decide), if_neg (by decide), if_neg (by decide), if_neg (by decide),
      if_neg (by decide), if_neg (by decide), if_neg (by decide), if_neg (by decide),
      if_pos (by decide)]
    rw [read_short_cons]
    simp only [bind_ok_eq]
    rw [show beVal [0x00, 0x01] = 1 from by decide]
    simp only [deser_type_listF]
    rw [deser_typeF_irrel (0x00 :: 0x31 :: 0x00 :: 0x01 :: inner).length (inner.length + 1) inner
      (by simp only [List.length_cons]; omega) (by omega)]
    rw [hin1]
    rfl


/-- C6 witness: instances of every conjunct at concrete wire bytes. -/
theorem c6_type_tags_witness :
    deser_type (0x76 :: 0x00 :: []) = .error (.TypeNotImplemented (0x76 * 256 + 0x00)) ∧
    deser_type (0x00 :: 0x01 :: [0x42]) = .ok (.Ascii, [0x42]) ∧
    deser_type (0x00 :: 0x20 :: [0x00, 0x09]) = .ok (.List .Int, []) ∧
    deser_type (0x00 :: 0x22 :: [0x00, 0x09]) = .ok (.Set .Int, []) ∧
    deser_type (0x00 :: 0x21 :: [0x00, 0x09, 0x00, 0x0D]) = .ok (.Map .Int .Text, []) ∧
    deser_type (0x00 :: 0x30 :: (write_string [0x6b] ++ (write_string [0x74]
        ++ (0x00 :: 0x00 :: []))))
      = .ok (.UserDefinedType [0x74] [0x6b] [], []) ∧
    deser_type (0x00 :: 0x30 :: (write_string [] ++ (write_string []
        ++ (0x00 :: 0x01 :: (write_string [0x61] ++ [0x00, 0x09])))))
      = .ok (.UserDefinedType [] [] [([0x61], .Int)], []) ∧
    deser_type (0x00 :: 0x31 :: 0x00 :: 0x00 :: []) = .ok (.Tuple [], []) ∧
    deser_type (0x00 :: 0x31 :: 0x00 :: 0x01 :: [0x00, 0x09]) = .ok (.Tuple [.Int], []) :=
  ⟨c6_type_tags.1 0x76 0x00 [] (by decide) (by decide) (by decide),
   (c6_type_tags.2.1 [0x42]).1,
   (c6_type_tags.2.2.1 [0x00, 0x09] [] .Int rfl).1,
   (c6_type_tags.2.2.1 [0x00, 0x09] [] .Int rfl).2,
   c6_type_tags.2.2.2.1 [0x00, 0x09, 0x00, 0x0D] [0x00, 0x0D] [] .Int .Text rfl rfl,
   c6_type_tags.2.2.2.2.1 [0x6b] [0x74] [] (by decide) (by decide) (by decide) (by decide),
   c6_type_tags.2.2.2.2.2.1 [] [] [0x61] [0x00, 0x09] [] .Int (by decide) (by decide)
     (by decide) (by decide) (by decide) (by decide) rfl,
   c6_type_tags.2.2.2.2.2.2.1 [],
   c6_type_tags.2.2.2.2.2.2.2 [0x00, 0x09] [] .Int rfl⟩


end Scylla
